import Mathlib

/-!
Shallow embedding of the population-data pipeline
(`src/data_processor.py` and `src/data_analyzer.py`).

Numbers flowing through the pandas pipeline are IEEE-754 doubles.  The
embedding represents them as `PVal`: a finite rational together with the
special values `+inf`, `-inf` and `NaN`, with the arithmetic of those special
values spelled out case by case exactly as numpy produces them (division by
zero yields a signed infinity or NaN, never an exception).  Tables are lists
of rows in pandas row order; `sort_values` on several columns is pandas'
stable lexsort, embedded as a stable insertion sort; `groupby(...).diff()`
and `groupby(...).pct_change()` read, for every row, the value of the most
recent earlier row of the same group, embedded as `prevVals`.

Rational arithmetic is expressed through the executable wrappers
`qadd`/`qsub`/`qmul`/`qdiv`/`qsum` (definitionally equal to `+`/`-`/`*`/`/`
on `ℚ`, see the bridge lemmas) so that every definition evaluates by kernel
reduction on concrete inputs.  String comparison `strLt` is the code-point
lexicographic order that pandas uses for object columns.
-/

/-- Executable rational addition (equal to `a + b`, see `qadd_eq`). -/
def qadd (a b : ℚ) : ℚ := mkRat (a.num * b.den + b.num * a.den) (a.den * b.den)

/-- Executable rational subtraction (equal to `a - b`, see `qsub_eq`). -/
def qsub (a b : ℚ) : ℚ := mkRat (a.num * b.den - b.num * a.den) (a.den * b.den)

/-- Executable rational multiplication (equal to `a * b`, see `qmul_eq`). -/
def qmul (a b : ℚ) : ℚ := mkRat (a.num * b.num) (a.den * b.den)

/-- Executable rational division (equal to `a / b`, see `qdiv_eq`). -/
def qdiv (a b : ℚ) : ℚ := mkRat (a.num * b.den * b.num.sign) (a.den * b.num.natAbs)

/-- Executable sum of a list of rationals (equal to `l.sum`, see `qsum_eq`). -/
def qsum (l : List ℚ) : ℚ := l.foldl qadd 0

/-- Code-point lexicographic comparison of character lists. -/
def charListLt : List Char → List Char → Bool
  | _, [] => false
  | [], _ :: _ => true
  | a :: as, b :: bs =>
    if a.toNat < b.toNat then true
    else if b.toNat < a.toNat then false
    else charListLt as bs

/-- Code-point lexicographic string comparison — the order pandas applies to
string (object) columns when sorting. -/
def strLt (a b : String) : Bool := charListLt a.data b.data

/-- A pandas/numpy scalar: a finite rational or one of the IEEE special
values `+inf`, `-inf`, `NaN`. -/
inductive PVal where
  | num (q : ℚ)
  | posInf
  | negInf
  | nan
deriving DecidableEq

namespace PVal

/-- IEEE subtraction as numpy performs it. -/
def sub : PVal → PVal → PVal
  | num a, num b => num (qsub a b)
  | num _, posInf => negInf
  | num _, negInf => posInf
  | posInf, num _ => posInf
  | negInf, num _ => negInf
  | posInf, negInf => posInf
  | negInf, posInf => negInf
  | posInf, posInf => nan
  | negInf, negInf => nan
  | nan, _ => nan
  | _, nan => nan

/-- IEEE division as numpy performs it: a finite value divided by zero gives
a signed infinity, and `0/0` gives NaN (numpy emits a warning, not an
exception). -/
def div : PVal → PVal → PVal
  | num a, num b =>
      if b = 0 then (if 0 < a then posInf else if a < 0 then negInf else nan)
      else num (qdiv a b)
  | num _, posInf => num 0
  | num _, negInf => num 0
  | posInf, num b => if b < 0 then negInf else posInf
  | negInf, num b => if b < 0 then posInf else negInf
  | posInf, posInf => nan
  | posInf, negInf => nan
  | negInf, posInf => nan
  | negInf, negInf => nan
  | nan, _ => nan
  | _, nan => nan

/-- IEEE multiplication as numpy performs it (`0 * inf = NaN`). -/
def mul : PVal → PVal → PVal
  | num a, num b => num (qmul a b)
  | num a, posInf => if 0 < a then posInf else if a < 0 then negInf else nan
  | num a, negInf => if 0 < a then negInf else if a < 0 then posInf else nan
  | posInf, num b => if 0 < b then posInf else if b < 0 then negInf else nan
  | negInf, num b => if 0 < b then negInf else if b < 0 then posInf else nan
  | posInf, posInf => posInf
  | posInf, negInf => negInf
  | negInf, posInf => negInf
  | negInf, negInf => posInf
  | nan, _ => nan
  | _, nan => nan

/-- IEEE addition as numpy performs it (`inf + (-inf) = NaN`). -/
def add : PVal → PVal → PVal
  | num a, num b => num (qadd a b)
  | num _, posInf => posInf
  | num _, negInf => negInf
  | posInf, num _ => posInf
  | negInf, num _ => negInf
  | posInf, posInf => posInf
  | negInf, negInf => negInf
  | posInf, negInf => nan
  | negInf, posInf => nan
  | nan, _ => nan
  | _, nan => nan

/-- Is this a finite number? -/
def isNum : PVal → Bool
  | num _ => true
  | _ => false

/-- Is this NaN? -/
def isNan : PVal → Bool
  | nan => true
  | _ => false

/-- The finite value, if any. -/
def toNum : PVal → Option ℚ
  | num q => some q
  | _ => none

/-- The comparison pandas sorting uses, with NaN placed last
(`na_position="last"`): `-inf < finite < +inf < NaN`. -/
def ble : PVal → PVal → Bool
  | _, nan => true
  | nan, _ => false
  | negInf, _ => true
  | num _, negInf => false
  | posInf, negInf => false
  | _, posInf => true
  | posInf, num _ => false
  | num a, num b => decide (a ≤ b)

end PVal

/-- Python-level exceptions produced by the pandas/numpy layer.  The
`emptyDatasetError` constructor stands for the `EmptyDatasetError` class named
by the specification; no such class exists in the source, and the embedding
never produces it, which makes its absence from results expressible. -/
inductive PyError where
  | valueError
  | emptyDatasetError
deriving DecidableEq

instance {ε α : Type} [DecidableEq ε] [DecidableEq α] : DecidableEq (Except ε α) := fun x y =>
  match x, y with
  | .ok a, .ok b =>
    if h : a = b then isTrue (by rw [h]) else isFalse (fun hh => h (Except.ok.inj hh))
  | .error a, .error b =>
    if h : a = b then isTrue (by rw [h]) else isFalse (fun hh => h (Except.error.inj hh))
  | .ok _, .error _ => isFalse (fun hh => Except.noConfusion hh)
  | .error _, .ok _ => isFalse (fun hh => Except.noConfusion hh)

/-- One entry of a raw record's `populationCounts` sequence. -/
structure RawEntry where
  year : Int
  value : ℚ
deriving DecidableEq

/-- One raw record of the payload: a country together with its ordered
sequence of per-year population counts. -/
structure RawRecord where
  country : String
  populationCounts : List RawEntry
deriving DecidableEq

/-- A row of the table right after `json_normalize` + `explode` +
`apply(pd.Series)`: exploding an empty list leaves one row whose `year` and
`value` are NaN (documented pandas behaviour of `DataFrame.explode`). -/
structure BaseRow where
  country : String
  year : PVal
  value : PVal
deriving DecidableEq

/-- A fully processed row as returned by `DataProcessor.process_data`. -/
structure ProcRow where
  country : String
  year : PVal
  value : PVal
  growth_value : PVal
  growth_percentage : PVal
deriving DecidableEq

/-- `df.explode("populationCounts")` + `apply(pd.Series)` for one record:
one row per entry, or a single NaN row for an empty sequence. -/
def explodeRecord (r : RawRecord) : List BaseRow :=
  if r.populationCounts = [] then [⟨r.country, .nan, .nan⟩]
  else r.populationCounts.map fun e => ⟨r.country, .num (e.year : ℚ), .num e.value⟩

/-- Lexicographic `(country, second key)` comparison with a parametric
comparison on the second key — the order `sort_values(["country", "year"])`
establishes. -/
def keyedLe {α γ : Type} (k : α → String) (m : α → γ) (mle : γ → γ → Bool)
    (a b : α) : Bool :=
  if k a = k b then mle (m a) (m b) else strLt (k a) (k b)

/-- Row comparison for `sort_values(["country", "year"])` on the exploded
table (years may be NaN there, sorted last). -/
def rowLe : BaseRow → BaseRow → Bool :=
  keyedLe (fun r => r.country) (fun r => r.year) PVal.ble

/-- `rowLe` as a relation, for the stable sort. -/
def RowLe (a b : BaseRow) : Prop := rowLe a b = true

instance : DecidableRel RowLe := fun a b => (Bool.decEq (rowLe a b) true : Decidable (RowLe a b))

/-- The per-row "previous value within my group" that
`groupby("country")["value"].diff()` / `.pct_change()` read: for each row in
order, the value of the most recent earlier row with the same country.
`seen` accumulates `(country, value)` pairs, most recent first. -/
def prevVals (seen : List (String × PVal)) : List (String × PVal) → List (Option PVal)
  | [] => []
  | (c, v) :: rest => (seen.lookup c) :: prevVals ((c, v) :: seen) rest

/-- The two derived columns for one row: `diff` (absolute growth) and
`pct_change() * 100` (percentage growth).  A row with no earlier row in its
group gets NaN in both. -/
def growthCols (prev : Option PVal) (v : PVal) : PVal × PVal :=
  match prev with
  | none => (.nan, .nan)
  | some p => (PVal.sub v p, PVal.mul (PVal.sub (PVal.div v p) (.num 1)) (.num 100))

/-- Attach the `growth_value` / `growth_percentage` columns computed by the
grouped `diff` / `pct_change` to a sorted exploded table. -/
def annotateRows (bs : List BaseRow) : List ProcRow :=
  List.zipWith
    (fun r p => ⟨r.country, r.year, r.value, (growthCols p r.value).1, (growthCols p r.value).2⟩)
    bs (prevVals [] (bs.map fun r => (r.country, r.value)))

/-- `DataProcessor.process_data`: normalize the nested payload into one row
per population count, sort by `(country, year)` (pandas' multi-column sort is
stable), and add the grouped growth columns. -/
def processData (payload : List RawRecord) : List ProcRow :=
  annotateRows (List.insertionSort RowLe (payload.flatMap explodeRecord))

/-- A row of the annotated table the analyzer consumes (the spec's
`ObservationRow`: integer year, numeric value, optional growth columns). -/
structure ARow where
  country : String
  year : Int
  value : ℚ
  growth_value : PVal
  growth_percentage : PVal
deriving DecidableEq

/-- A row of a forecast result: `pd.concat` of the observed rows (which keep
their growth columns and get `is_predicted=False`) with the regression rows
(whose growth columns are absent, i.e. NaN after concat). -/
structure FRow where
  country : String
  year : Int
  value : ℚ
  growth_value : PVal
  growth_percentage : PVal
  is_predicted : Bool
deriving DecidableEq

/-- The statistics dictionary built by `DataAnalyzer.calculate_statistics`. -/
structure Stats where
  total_countries : Nat
  year_range : PVal × PVal
  total_population_start : ℚ
  total_population_end : ℚ
  total_growth_percentage : PVal
  avg_annual_growth_percentage : PVal
  largest_population_country : String
  largest_population_value : PVal
  smallest_population_country : String
  smallest_population_value : PVal
  highest_growth_country : String
  highest_growth_percentage : PVal
  lowest_growth_country : String
  lowest_growth_percentage : PVal
deriving DecidableEq

/-- The year column. -/
def yearsOf (df : List ARow) : List Int := df.map (fun r => r.year)

/-- `Series.min()` on an integer column: NaN on an empty series. -/
def intMinP (l : List Int) : PVal :=
  match l.min? with
  | none => .nan
  | some m => .num (m : ℚ)

/-- `Series.max()` on an integer column: NaN on an empty series. -/
def intMaxP (l : List Int) : PVal :=
  match l.max? with
  | none => .nan
  | some m => .num (m : ℚ)

/-- `Series.mean()` with pandas' default `skipna=True`: NaN values are
dropped, an empty or all-NaN series has mean NaN, and remaining infinities
participate in the arithmetic. -/
def meanSkipNan (xs : List PVal) : PVal :=
  let vs := xs.filter (fun v => !v.isNan)
  if vs.isEmpty then .nan
  else PVal.div (vs.foldl PVal.add (.num 0)) (.num (vs.length : ℚ))

/-- `≤` on `Int`, for `groupby("year")`, whose keys come out sorted. -/
def IntLe (a b : Int) : Prop := a ≤ b

instance : DecidableRel IntLe := fun a b => Int.decLe a b

/-- The distinct years of the table in ascending order — the index of
`df.groupby("year")`. -/
def sortedYears (df : List ARow) : List Int :=
  List.insertionSort IntLe ((yearsOf df).dedup)

/-- The `growth_percentage` values of one year group, in row order. -/
def groupGp (df : List ARow) (y : Int) : List PVal :=
  (df.filter (fun r => decide (r.year = y))).map (fun r => r.growth_percentage)

/-- The latest-year cross-section `df[df["year"] == df["year"].max()]`. -/
def latestData (df : List ARow) : List ARow :=
  df.filter (fun r => PVal.num (r.year : ℚ) == intMaxP (yearsOf df))

/-- The earliest-year cross-section `df[df["year"] == df["year"].min()]`. -/
def earliestData (df : List ARow) : List ARow :=
  df.filter (fun r => PVal.num (r.year : ℚ) == intMinP (yearsOf df))

/-- `df.loc[df["value"].idxmax()]`: the first row attaining the maximum of
the `value` column; `idxmax` raises `ValueError` on an empty frame. -/
def locIdxmaxValue : List ARow → Except PyError ARow
  | [] => .error .valueError
  | r :: rest => .ok (rest.foldl (fun best x => if decide (best.value < x.value) then x else best) r)

/-- `df.loc[df["value"].idxmin()]`: the first row attaining the minimum. -/
def locIdxminValue : List ARow → Except PyError ARow
  | [] => .error .valueError
  | r :: rest => .ok (rest.foldl (fun best x => if decide (x.value < best.value) then x else best) r)

/-- String comparison as a relation (`a ≤ b` iff not `b < a`). -/
def StrLe (a b : String) : Prop := (!strLt b a) = true

instance : DecidableRel StrLe := fun a b => (Bool.decEq (!strLt b a) true : Decidable (StrLe a b))

/-- The distinct countries in ascending order — the index of
`df.groupby("country")` (pandas groups are sorted by key by default). -/
def sortedCountries (df : List ARow) : List String :=
  List.insertionSort StrLe ((df.map (fun r => r.country)).dedup)

/-- The per-country total growth percentage computed by the
`groupby("country").apply(...)` lambda: relative change of the value at the
country's own maximum year versus its minimum year (`values[0]` picks the
first matching row).  Only invoked with countries present in the table, where
the group is non-empty; the fallback arm is unreachable there. -/
def countryGrowthPct (df : List ARow) (c : String) : PVal :=
  let xs := df.filter (fun r => r.country == c)
  match (xs.map (fun r => r.year)).max?, (xs.map (fun r => r.year)).min? with
  | some ymax, some ymin =>
    let vmax : ℚ := ((xs.filter (fun r => decide (r.year = ymax))).map (fun r => r.value)).headD 0
    let vmin : ℚ := ((xs.filter (fun r => decide (r.year = ymin))).map (fun r => r.value)).headD 0
    PVal.mul (PVal.div (PVal.num (qsub vmax vmin)) (PVal.num vmin)) (PVal.num 100)
  | _, _ => PVal.nan

/-- `Series.idxmax` over a keyed column with `skipna=True`: the first key
attaining the maximum among non-NaN values, `None` when all are NaN (pandas
raises `ValueError` there). -/
def firstMaxPVal (best : Option (String × PVal)) : List (String × PVal) → Option (String × PVal)
  | [] => best
  | (c, v) :: rest =>
    if v.isNan then firstMaxPVal best rest
    else
      match best with
      | none => firstMaxPVal (some (c, v)) rest
      | some (c0, w) =>
        if PVal.ble v w then firstMaxPVal (some (c0, w)) rest
        else firstMaxPVal (some (c, v)) rest

/-- `Series.idxmin` over a keyed column with `skipna=True`. -/
def firstMinPVal (best : Option (String × PVal)) : List (String × PVal) → Option (String × PVal)
  | [] => best
  | (c, v) :: rest =>
    if v.isNan then firstMinPVal best rest
    else
      match best with
      | none => firstMinPVal (some (c, v)) rest
      | some (c0, w) =>
        if PVal.ble w v then firstMinPVal (some (c0, w)) rest
        else firstMinPVal (some (c, v)) rest

/-- `Series.max()` on a rational column (NaN on empty). -/
def qMaxList (xs : List ℚ) : PVal :=
  match xs.max? with
  | none => .nan
  | some m => .num m

/-- `Series.min()` on a rational column (NaN on empty). -/
def qMinList (xs : List ℚ) : PVal :=
  match xs.min? with
  | none => .nan
  | some m => .num m

/-- `Series.max()` on a float column with `skipna=True`. -/
def pvalMaxSkip (xs : List PVal) : PVal :=
  xs.foldl (fun acc v => if v.isNan then acc else if acc.isNan then v else if PVal.ble v acc then acc else v) .nan

/-- `Series.min()` on a float column with `skipna=True`. -/
def pvalMinSkip (xs : List PVal) : PVal :=
  xs.foldl (fun acc v => if v.isNan then acc else if acc.isNan then v else if PVal.ble acc v then acc else v) .nan

/-- `DataAnalyzer.calculate_statistics`, in the source's evaluation order:
the scalar aggregates never raise (numpy turns division by zero into
NaN/infinity with a warning), and the first operation that can raise on an
empty table is the `idxmax` over the empty latest-year cross-section. -/
def calculateStatistics (df : List ARow) : Except PyError Stats :=
  let totalCountries := (df.map (fun r => r.country)).dedup.length
  let yearMin := intMinP (yearsOf df)
  let yearMax := intMaxP (yearsOf df)
  let startTotal := qsum ((earliestData df).map (fun r => r.value))
  let endTotal := qsum ((latestData df).map (fun r => r.value))
  let totalGrowthPct :=
    PVal.mul (PVal.div (PVal.num (qsub endTotal startTotal)) (PVal.num startTotal)) (PVal.num 100)
  let avgAnnual := meanSkipNan ((sortedYears df).map (fun y => meanSkipNan (groupGp df y)))
  let latest := latestData df
  match locIdxmaxValue latest with
  | .error e => .error e
  | .ok largestRow =>
    match locIdxminValue latest with
    | .error e => .error e
    | .ok smallestRow =>
      let growthList := (sortedCountries df).map (fun c => (c, countryGrowthPct df c))
      match firstMaxPVal none growthList with
      | none => .error .valueError
      | some hi =>
        match firstMinPVal none growthList with
        | none => .error .valueError
        | some lo =>
          .ok {
            total_countries := totalCountries
            year_range := (yearMin, yearMax)
            total_population_start := startTotal
            total_population_end := endTotal
            total_growth_percentage := totalGrowthPct
            avg_annual_growth_percentage := avgAnnual
            largest_population_country := largestRow.country
            largest_population_value := qMaxList (latest.map (fun r => r.value))
            smallest_population_country := smallestRow.country
            smallest_population_value := qMinList (latest.map (fun r => r.value))
            highest_growth_country := hi.1
            highest_growth_percentage := pvalMaxSkip (growthList.map (fun p => p.2))
            lowest_growth_country := lo.1
            lowest_growth_percentage := pvalMinSkip (growthList.map (fun p => p.2)) }

/-- Year-only comparison for `sort_values("year")` in the forecaster. -/
def YearLe (a b : ARow) : Prop := a.year ≤ b.year

instance : DecidableRel YearLe := fun a b => Int.decLe a.year b.year

/-- `DataAnalyzer.predict_population`: filter one country's rows, sort by
year, fit an ordinary least-squares line of value on year (scikit-learn's
`LinearRegression`; a singular system — all years equal — yields the
degenerate fit with zero slope through the mean), and extrapolate the next
`yearsToPredict` integer years, marked `is_predicted`.  Returns `None` when
the country has no rows. -/
def predictPopulation (df : List ARow) (country : String) (yearsToPredict : Nat) :
    Option (List FRow) :=
  let countryData := List.insertionSort YearLe (df.filter (fun r => r.country == country))
  if countryData.isEmpty then none
  else
    let n : ℚ := (countryData.length : ℚ)
    let xs : List ℚ := countryData.map (fun r => (r.year : ℚ))
    let sx := qsum xs
    let sy := qsum (countryData.map (fun r => r.value))
    let sxx := qsum (xs.map (fun x => qmul x x))
    let sxy := qsum (countryData.map (fun r => qmul (r.year : ℚ) r.value))
    let den := qsub (qmul n sxx) (qmul sx sx)
    let slope := if den = 0 then 0 else qdiv (qsub (qmul n sxy) (qmul sx sy)) den
    let icept := qsub (qdiv sy n) (qmul slope (qdiv sx n))
    let lastYear := ((countryData.map (fun r => r.year)).max?).getD 0
    let future := (List.range yearsToPredict).map (fun (k : Nat) =>
      ({ country := country, year := lastYear + 1 + (k : Int),
         value := qadd (qmul slope ((lastYear + 1 + (k : Int) : Int) : ℚ)) icept,
         growth_value := .nan, growth_percentage := .nan, is_predicted := true } : FRow))
    let observed := countryData.map (fun r =>
      ({ country := r.country, year := r.year, value := r.value,
         growth_value := r.growth_value, growth_percentage := r.growth_percentage,
         is_predicted := false } : FRow))
    some (observed ++ future)

/-- `(country, year)` comparison for the comparator's
`sort_values(["country", "year"])`. -/
def ARowLe (a b : ARow) : Prop :=
  keyedLe (fun r => r.country) (fun r => r.year) (fun x y => decide (x ≤ y)) a b = true

instance : DecidableRel ARowLe := fun a b => by unfold ARowLe; infer_instance

/-- Recompute `growth_value` / `growth_percentage` from scratch over a
(filtered, sorted) table — the comparator's grouped `diff`/`pct_change`. -/
def reannotate (rows : List ARow) : List ARow :=
  List.zipWith
    (fun r p =>
      { r with growth_value := (growthCols p (PVal.num r.value)).1,
               growth_percentage := (growthCols p (PVal.num r.value)).2 })
    rows (prevVals [] (rows.map (fun r => (r.country, PVal.num r.value))))

/-- The `try` block of `DataAnalyzer.compare_countries`: filter by country
set, return `None` (no data) if nothing matches, filter by the optional
inclusive year bounds, sort, and re-derive the growth columns over the
filtered window.  Every primitive here is total on well-typed tables, so the
body never raises in the embedding. -/
def compareTry (df : List ARow) (countries : List String) (startYear endYear : Option Int) :
    Except PyError (Option (List ARow)) :=
  let filtered := df.filter (fun r => countries.contains r.country)
  if filtered.isEmpty then .ok none
  else
    let f1 := match startYear with
      | none => filtered
      | some s => filtered.filter (fun r => decide (s ≤ r.year))
    let f2 := match endYear with
      | none => f1
      | some e => f1.filter (fun r => decide (r.year ≤ e))
    .ok (some (reannotate (List.insertionSort ARowLe f2)))

/-- The `except` clause of `compare_countries`: every exception is converted
into the very `None` used as the no-data signal. -/
def exceptToNone (r : Except PyError (Option (List ARow))) : Option (List ARow) :=
  match r with
  | .ok v => v
  | .error _ => none

/-- `DataAnalyzer.compare_countries`: the `try` body with its catch-all
`except` clause. -/
def compareCountries (df : List ARow) (countries : List String)
    (startYear endYear : Option Int) : Option (List ARow) :=
  exceptToNone (compareTry df countries startYear endYear)

/-- The combined row filter of the comparator, as the spec states it:
country in the target set and inside the inclusive year bounds. -/
def matchesFilter (countries : List String) (startYear endYear : Option Int) (r : ARow) : Bool :=
  countries.contains r.country &&
  (match startYear with | none => true | some s => decide (s ≤ r.year)) &&
  (match endYear with | none => true | some e => decide (r.year ≤ e))

/-- Mean of a list of rationals, `none` when empty. -/
def qMean (xs : List ℚ) : Option ℚ :=
  if xs.isEmpty then none else some (qdiv (qsum xs) ((xs.length : ℚ)))

/-- The defined (finite) `growth_percentage` values of one year group. -/
def definedGrowths (df : List ARow) (y : Int) : List ℚ :=
  (df.filter (fun r => decide (r.year = y))).filterMap (fun r => r.growth_percentage.toNum)

/-- The specification's reading of `avg_annual_growth_percentage`: the mean
over distinct years of the per-year mean of `growth_percentage` with
undefined values ignored (a year none of whose values are defined contributes
nothing); NaN when no year contributes.  The distinct years are enumerated
in ascending order, which is immaterial to a mean. -/
def specAvgAnnual (df : List ARow) : PVal :=
  match qMean ((sortedYears df).filterMap (fun y => qMean (definedGrowths df y))) with
  | none => .nan
  | some q => .num q

/-! ### Concrete inputs used by witnesses and counterexamples -/

/-- The spec's running example payload: country "A" with three years. -/
def exPayload : List RawRecord := [⟨"A", [⟨2000, 100⟩, ⟨2001, 110⟩, ⟨2002, 121⟩]⟩]

/-- A payload with one empty `populationCounts` sequence next to a normal
record. -/
def c1Payload : List RawRecord := [⟨"A", []⟩, ⟨"B", [⟨2000, 5⟩]⟩]

/-- A payload whose first year has population zero. -/
def c3Payload : List RawRecord := [⟨"Z", [⟨2000, 0⟩, ⟨2001, 5⟩]⟩]

/-- The spec's running example, already annotated. -/
def exTable : List ARow :=
  [⟨"A", 2000, 100, .nan, .nan⟩, ⟨"A", 2001, 110, .num 10, .num 10⟩,
   ⟨"A", 2002, 121, .num 11, .num 10⟩]

/-- The statistics of `exTable`. -/
def exStats : Stats :=
  { total_countries := 1
    year_range := (.num 2000, .num 2002)
    total_population_start := 100
    total_population_end := 121
    total_growth_percentage := .num 21
    avg_annual_growth_percentage := .num 10
    largest_population_country := "A"
    largest_population_value := .num 121
    smallest_population_country := "A"
    smallest_population_value := .num 121
    highest_growth_country := "A"
    highest_growth_percentage := .num 21
    lowest_growth_country := "A"
    lowest_growth_percentage := .num 21 }

/-- A two-country table in which "A" and "B" tie on every extremal
statistic. -/
def c6Table : List ARow :=
  [⟨"A", 2000, 100, .nan, .nan⟩, ⟨"A", 2001, 110, .num 10, .num 10⟩,
   ⟨"B", 2000, 100, .nan, .nan⟩, ⟨"B", 2001, 110, .num 10, .num 10⟩]

/-- The statistics of `c6Table`: every tied extremal resolves to "A". -/
def c6Stats : Stats :=
  { total_countries := 2
    year_range := (.num 2000, .num 2001)
    total_population_start := 200
    total_population_end := 220
    total_growth_percentage := .num 10
    avg_annual_growth_percentage := .num 10
    largest_population_country := "A"
    largest_population_value := .num 110
    smallest_population_country := "A"
    smallest_population_value := .num 110
    highest_growth_country := "A"
    highest_growth_percentage := .num 10
    lowest_growth_country := "A"
    lowest_growth_percentage := .num 10 }

/-- A one-row table used to probe the comparator's year filter. -/
def c8Table : List ARow := [⟨"A", 2000, 100, .nan, .nan⟩]

/-! ### Characterizing the grouped shift on sorted tables -/

def prevOf (prev : Option (String × PVal)) (c : String) : Option PVal :=
  match prev with
  | none => none
  | some (c0, v0) => if c0 = c then some v0 else none

def specPrevs (prev : Option (String × PVal)) : List (String × PVal) → List (Option PVal)
  | [] => []
  | (c, v) :: rest => prevOf prev c :: specPrevs (some (c, v)) rest

def CountryLe (c d : String) : Prop := c = d ∨ strLt c d = true

/-- Predicates naming the rows that attain each extremal statistic. -/
def isLatestMaxRow (df : List ARow) (r : ARow) : Bool :=
  (PVal.num (r.year : ℚ) == intMaxP (yearsOf df)) &&
  (latestData df).all (fun x => decide (x.value ≤ r.value))

def isLatestMinRow (df : List ARow) (r : ARow) : Bool :=
  (PVal.num (r.year : ℚ) == intMaxP (yearsOf df)) &&
  (latestData df).all (fun x => decide (r.value ≤ x.value))

def isTopGrowthRow (df : List ARow) (r : ARow) : Bool :=
  df.all (fun x => PVal.ble (countryGrowthPct df x.country) (countryGrowthPct df r.country))

def isBottomGrowthRow (df : List ARow) (r : ARow) : Bool :=
  df.all (fun x => PVal.ble (countryGrowthPct df r.country) (countryGrowthPct df x.country))

/-! ### Bridge lemmas: the executable arithmetic is ordinary `ℚ` arithmetic -/

theorem qadd_eq (a b : ℚ) : qadd a b = a + b := by
  have ha : (a.den : ℚ) ≠ 0 := Nat.cast_ne_zero.mpr a.den_nz
  have hb : (b.den : ℚ) ≠ 0 := Nat.cast_ne_zero.mpr b.den_nz
  rw [qadd, Rat.mkRat_eq_div]
  push_cast
  conv_rhs => rw [← Rat.num_div_den a, ← Rat.num_div_den b]
  field_simp

theorem qsub_eq (a b : ℚ) : qsub a b = a - b := by
  have ha : (a.den : ℚ) ≠ 0 := Nat.cast_ne_zero.mpr a.den_nz
  have hb : (b.den : ℚ) ≠ 0 := Nat.cast_ne_zero.mpr b.den_nz
  rw [qsub, Rat.mkRat_eq_div]
  push_cast
  conv_rhs => rw [← Rat.num_div_den a, ← Rat.num_div_den b]
  field_simp
  ring

theorem qmul_eq (a b : ℚ) : qmul a b = a * b := by
  have ha : (a.den : ℚ) ≠ 0 := Nat.cast_ne_zero.mpr a.den_nz
  have hb : (b.den : ℚ) ≠ 0 := Nat.cast_ne_zero.mpr b.den_nz
  rw [qmul, Rat.mkRat_eq_div]
  push_cast
  conv_rhs => rw [← Rat.num_div_den a, ← Rat.num_div_den b]
  field_simp

theorem qdiv_eq (a b : ℚ) : qdiv a b = a / b := by
  have ha : (a.den : ℚ) ≠ 0 := Nat.cast_ne_zero.mpr a.den_nz
  have hb : (b.den : ℚ) ≠ 0 := Nat.cast_ne_zero.mpr b.den_nz
  rcases lt_trichotomy b.num 0 with hn | hn | hn
  · have hsign : b.num.sign = -1 := Int.sign_eq_neg_one_of_neg hn
    have hbne : b ≠ 0 := by
      intro h; rw [h] at hn; simp at hn
    rw [qdiv, Rat.mkRat_eq_div, hsign]
    push_cast
    conv_rhs => rw [← Rat.num_div_den a, ← Rat.num_div_den b]
    have hbn : (b.num : ℚ) ≠ 0 := by
      exact_mod_cast Rat.num_ne_zero.mpr hbne
    have habsQ : ((b.num.natAbs : ℚ)) = -(b.num : ℚ) := by
      rw [Int.cast_natAbs, abs_of_neg hn]
      push_cast
      ring
    field_simp
    rw [habsQ]
    ring
  · have hb0 : b = 0 := Rat.num_eq_zero.mp hn
    subst hb0
    rw [qdiv]
    norm_num
  · have hsign : b.num.sign = 1 := Int.sign_eq_one_of_pos hn
    have hbne : b ≠ 0 := by
      intro h; rw [h] at hn; simp at hn
    rw [qdiv, Rat.mkRat_eq_div, hsign]
    push_cast
    conv_rhs => rw [← Rat.num_div_den a, ← Rat.num_div_den b]
    have hbn : (b.num : ℚ) ≠ 0 := by
      exact_mod_cast Rat.num_ne_zero.mpr hbne
    have habsQ : ((b.num.natAbs : ℚ)) = (b.num : ℚ) := by
      rw [Int.cast_natAbs, abs_of_pos hn]
    field_simp
    rw [habsQ]
    left
    rfl

theorem qsum_from (l : List ℚ) : ∀ acc : ℚ, l.foldl qadd acc = acc + l.sum := by
  induction l with
  | nil => intro acc; simp
  | cons a l ih =>
    intro acc
    simp only [List.foldl_cons, List.sum_cons, ih, qadd_eq]
    ring

theorem qsum_eq (l : List ℚ) : qsum l = l.sum := by
  rw [qsum, qsum_from]
  ring

/-! ### Order lemmas for the sort comparisons -/

theorem char_toNat_inj {a b : Char} (h : a.toNat = b.toNat) : a = b := by
  unfold Char.toNat at h
  exact Char.ext (UInt32.eq_of_val_eq (by exact Fin.eq_of_val_eq h))

theorem charListLt_cons (x y : Char) (xs ys : List Char) :
    charListLt (x :: xs) (y :: ys)
      = if x.toNat < y.toNat then true
        else if y.toNat < x.toNat then false else charListLt xs ys := rfl

theorem charListLt_iff (x y : Char) (xs ys : List Char) :
    charListLt (x :: xs) (y :: ys) = true ↔
      x.toNat < y.toNat ∨ (x.toNat = y.toNat ∧ charListLt xs ys = true) := by
  rw [charListLt_cons]
  rcases Nat.lt_trichotomy x.toNat y.toNat with h | h | h
  · rw [if_pos h]
    simp [h]
  · rw [if_neg (by omega), if_neg (by omega)]
    constructor
    · intro hr
      exact Or.inr ⟨h, hr⟩
    · intro hr
      rcases hr with hlt | ⟨_, hr⟩
      · omega
      · exact hr
  · rw [if_neg (by omega), if_pos h]
    constructor
    · intro hr
      exact absurd hr (by simp)
    · intro hr
      rcases hr with hlt | ⟨heq, _⟩ <;> omega

theorem charListLt_trans : ∀ a b c : List Char,
    charListLt a b = true → charListLt b c = true → charListLt a c = true := by
  intro a
  induction a with
  | nil =>
    intro b c h1 h2
    cases b with
    | nil => exact absurd h1 (by simp [charListLt])
    | cons y ys =>
      cases c with
      | nil => exact absurd h2 (by simp [charListLt])
      | cons z zs => rfl
  | cons x xs ih =>
    intro b c h1 h2
    cases b with
    | nil => exact absurd h1 (by simp [charListLt])
    | cons y ys =>
      cases c with
      | nil => exact absurd h2 (by simp [charListLt])
      | cons z zs =>
        rw [charListLt_iff] at h1 h2 ⊢
        rcases h1 with h1 | ⟨h1e, h1r⟩
        · rcases h2 with h2 | ⟨h2e, _⟩
          · exact Or.inl (by omega)
          · exact Or.inl (by omega)
        · rcases h2 with h2 | ⟨h2e, h2r⟩
          · exact Or.inl (by omega)
          · exact Or.inr ⟨by omega, ih ys zs h1r h2r⟩

theorem charListLt_irrefl : ∀ a : List Char, charListLt a a = false := by
  intro a
  induction a with
  | nil => rfl
  | cons x xs ih =>
    rw [charListLt_cons, if_neg (by omega), if_neg (by omega)]
    exact ih

theorem charListLt_connex : ∀ a b : List Char,
    charListLt a b = false → charListLt b a = false → a = b := by
  intro a
  induction a with
  | nil =>
    intro b h1 _h2
    cases b with
    | nil => rfl
    | cons y ys => exact absurd h1 (by simp [charListLt])
  | cons x xs ih =>
    intro b h1 h2
    cases b with
    | nil => exact absurd h2 (by simp [charListLt])
    | cons y ys =>
      rcases Nat.lt_trichotomy x.toNat y.toNat with h | h | h
      · rw [charListLt_cons, if_pos h] at h1
        exact absurd h1 (by simp)
      · rw [charListLt_cons, if_neg (by omega), if_neg (by omega)] at h1
        rw [charListLt_cons, if_neg (by omega), if_neg (by omega)] at h2
        rw [char_toNat_inj h, ih ys h1 h2]
      · rw [charListLt_cons, if_pos h] at h2
        exact absurd h2 (by simp)

theorem charListLt_asymm : ∀ a b : List Char,
    charListLt a b = true → charListLt b a = false := by
  intro a b h
  cases hba : charListLt b a with
  | false => rfl
  | true =>
    have := charListLt_trans a b a h hba
    rw [charListLt_irrefl] at this
    exact absurd this (by simp)

theorem strLt_trans {a b c : String} (h1 : strLt a b = true) (h2 : strLt b c = true) :
    strLt a c = true :=
  charListLt_trans _ _ _ h1 h2

theorem strLt_irrefl (a : String) : strLt a a = false :=
  charListLt_irrefl _

theorem strLt_asymm {a b : String} (h : strLt a b = true) : strLt b a = false :=
  charListLt_asymm _ _ h

theorem strLt_connex {a b : String} (h1 : strLt a b = false) (h2 : strLt b a = false) :
    a = b :=
  String.ext (charListLt_connex _ _ h1 h2)

theorem strLt_ne {a b : String} (h : strLt a b = true) : a ≠ b := by
  intro he
  rw [he, strLt_irrefl] at h
  exact absurd h (by simp)

theorem PVal.ble_trans : ∀ a b c : PVal, PVal.ble a b = true → PVal.ble b c = true → PVal.ble a c = true := by
  intro a b c h1 h2
  cases a <;> cases b <;> cases c <;>
    simp_all [PVal.ble] <;> exact le_trans h1 h2

theorem PVal.ble_total : ∀ a b : PVal, PVal.ble a b = true ∨ PVal.ble b a = true := by
  intro a b
  cases a <;> cases b <;> simp_all [PVal.ble] <;> exact le_total _ _

theorem PVal.ble_refl : ∀ a : PVal, PVal.ble a a = true := by
  intro a
  cases a <;> simp [PVal.ble]

theorem keyedLe_trans {α γ : Type} (k : α → String) (m : α → γ) (mle : γ → γ → Bool)
    (hmle : ∀ x y z : γ, mle x y = true → mle y z = true → mle x z = true)
    (a b c : α) (h1 : keyedLe k m mle a b = true) (h2 : keyedLe k m mle b c = true) :
    keyedLe k m mle a c = true := by
  unfold keyedLe at h1 h2 ⊢
  by_cases e1 : k a = k b
  · rw [if_pos e1] at h1
    by_cases e2 : k b = k c
    · rw [if_pos e2] at h2
      rw [if_pos (e1.trans e2)]
      exact hmle _ _ _ h1 h2
    · rw [if_neg e2] at h2
      have hne : k a ≠ k c := by
        intro he
        exact (strLt_ne h2) (e1 ▸ he)
      rw [if_neg hne, e1]
      exact h2
  · rw [if_neg e1] at h1
    by_cases e2 : k b = k c
    · rw [if_pos e2] at h2
      have hne : k a ≠ k c := fun he => e1 (he.trans e2.symm)
      rw [if_neg hne, ← e2]
      exact h1
    · rw [if_neg e2] at h2
      have h3 := strLt_trans h1 h2
      rw [if_neg (strLt_ne h3)]
      exact h3

theorem keyedLe_total {α γ : Type} (k : α → String) (m : α → γ) (mle : γ → γ → Bool)
    (hmle : ∀ x y : γ, mle x y = true ∨ mle y x = true)
    (a b : α) : keyedLe k m mle a b = true ∨ keyedLe k m mle b a = true := by
  unfold keyedLe
  by_cases e : k a = k b
  · rw [if_pos e, if_pos e.symm]
    exact hmle _ _
  · rw [if_neg e, if_neg (Ne.symm e)]
    cases hab : strLt (k a) (k b) with
    | true => exact Or.inl rfl
    | false =>
      cases hba : strLt (k b) (k a) with
      | true => exact Or.inr rfl
      | false => exact absurd (strLt_connex hab hba) e

theorem keyedLe_country {α γ : Type} (k : α → String) (m : α → γ) (mle : γ → γ → Bool)
    {a b : α} (h : keyedLe k m mle a b = true) :
    k a = k b ∨ strLt (k a) (k b) = true := by
  unfold keyedLe at h
  by_cases e : k a = k b
  · exact Or.inl e
  · rw [if_neg e] at h
    exact Or.inr h

theorem keyedLe_second {α γ : Type} (k : α → String) (m : α → γ) (mle : γ → γ → Bool)
    {a b : α} (h : keyedLe k m mle a b = true) (he : k a = k b) :
    mle (m a) (m b) = true := by
  unfold keyedLe at h
  rw [if_pos he] at h
  exact h


theorem prevVals_eq_specPrevs_aux :
    ∀ (ps : List (String × PVal)) (seen : List (String × PVal)) (prev : Option (String × PVal)),
      List.Pairwise (fun x y : String × PVal => CountryLe x.1 y.1) ps →
      (match prev with
       | none => ∀ p ∈ ps, seen.lookup p.1 = none
       | some (c0, v0) =>
           seen.lookup c0 = some v0 ∧ (∀ p ∈ ps, p.1 ≠ c0 → seen.lookup p.1 = none) ∧
           (∀ p ∈ ps, CountryLe c0 p.1)) →
      prevVals seen ps = specPrevs prev ps := by
  intro ps
  induction ps with
  | nil => intro seen prev _ _; rfl
  | cons hd rest ih =>
    intro seen prev hpair hseen
    obtain ⟨c, v⟩ := hd
    have hpairHead : ∀ p ∈ rest, CountryLe c p.1 :=
      fun p hp => (List.pairwise_cons.mp hpair).1 p hp
    have hpairRest : List.Pairwise (fun x y : String × PVal => CountryLe x.1 y.1) rest :=
      (List.pairwise_cons.mp hpair).2
    show (seen.lookup c) :: prevVals ((c, v) :: seen) rest = prevOf prev c :: specPrevs (some (c, v)) rest
    have hhead : seen.lookup c = prevOf prev c := by
      match prev with
      | none => exact hseen (c, v) (List.mem_cons_self _ _)
      | some (c0, v0) =>
        obtain ⟨h1, h2, _h3⟩ := hseen
        simp only [prevOf]
        by_cases he : c0 = c
        · rw [if_pos he, ← he]
          exact h1
        · rw [if_neg he]
          exact h2 (c, v) (List.mem_cons_self _ _) (fun hc => he hc.symm)
    rw [hhead]
    congr 1
    apply ih ((c, v) :: seen) (some (c, v)) hpairRest
    refine ⟨?_, ?_, ?_⟩
    · simp [List.lookup_cons]
    · intro p hp hne
      have hlk : ((c, v) :: seen).lookup p.1 = seen.lookup p.1 := by
        rw [List.lookup_cons]
        have : (p.1 == c) = false := by
          simp only [beq_eq_false_iff_ne, ne_eq]
          exact hne
        rw [this]
      rw [hlk]
      match prev with
      | none => exact hseen p (List.mem_cons_of_mem _ hp)
      | some (c0, v0) =>
        obtain ⟨_h1, h2, h3⟩ := hseen
        apply h2 p (List.mem_cons_of_mem _ hp)
        intro hpc0
        rcases h3 (c, v) (List.mem_cons_self _ _) with he | hlt
        · exact hne (hpc0.trans he)
        · rcases hpairHead p hp with he2 | hlt2
          · exact hne he2.symm
          · have := strLt_trans hlt hlt2
            rw [← hpc0] at this
            exact absurd this (by rw [strLt_irrefl]; simp)
    · exact hpairHead

theorem prevVals_eq_specPrevs (ps : List (String × PVal))
    (h : List.Pairwise (fun x y : String × PVal => CountryLe x.1 y.1) ps) :
    prevVals [] ps = specPrevs none ps :=
  prevVals_eq_specPrevs_aux ps [] none h (fun p _ => rfl)

theorem specPrevs_length : ∀ (prev : Option (String × PVal)) (ps : List (String × PVal)),
    (specPrevs prev ps).length = ps.length := by
  intro prev ps
  induction ps generalizing prev with
  | nil => rfl
  | cons hd rest ih =>
    obtain ⟨c, v⟩ := hd
    simp only [specPrevs, List.length_cons, ih]

theorem specPrevs_get_zero (prev : Option (String × PVal)) (ps : List (String × PVal)) :
    (specPrevs prev ps)[0]? = (ps[0]?).map (fun p => prevOf prev p.1) := by
  cases ps with
  | nil => rfl
  | cons hd rest =>
    obtain ⟨c, v⟩ := hd
    simp [specPrevs]

theorem specPrevs_get_succ :
    ∀ (ps : List (String × PVal)) (prev : Option (String × PVal)) (j : Nat),
      (specPrevs prev ps)[j + 1]? =
        match ps[j]?, ps[j + 1]? with
        | some p, some q => some (if p.1 = q.1 then some p.2 else none)
        | _, _ => none := by
  intro ps
  induction ps with
  | nil => intro prev j; rfl
  | cons hd rest ih =>
    intro prev j
    obtain ⟨c, v⟩ := hd
    have hstep : (specPrevs prev ((c, v) :: rest))[j + 1]? = (specPrevs (some (c, v)) rest)[j]? := by
      simp [specPrevs]
    rw [hstep]
    cases j with
    | zero =>
      rw [specPrevs_get_zero]
      rw [List.getElem?_cons_zero, List.getElem?_cons_succ]
      cases rest with
      | nil => rfl
      | cons hd2 rest2 =>
        obtain ⟨c2, v2⟩ := hd2
        simp [prevOf]
    | succ k =>
      rw [ih (some (c, v)) k, List.getElem?_cons_succ, List.getElem?_cons_succ]

theorem prevVals_length : ∀ (seen ps : List (String × PVal)), (prevVals seen ps).length = ps.length := by
  intro seen ps
  induction ps generalizing seen with
  | nil => rfl
  | cons hd rest ih =>
    obtain ⟨c, v⟩ := hd
    simp only [prevVals, List.length_cons, ih]

theorem annotateRows_length (bs : List BaseRow) : (annotateRows bs).length = bs.length := by
  rw [annotateRows, List.length_zipWith, prevVals_length, List.length_map, min_self]

/-- On a table whose countries are sorted (every block of equal countries
contiguous), the grouped shift of `annotateRows` reads the immediately
preceding row. -/
theorem annotateRows_sorted_eq (bs : List BaseRow)
    (h : List.Pairwise (fun a b : BaseRow => CountryLe a.country b.country) bs) :
    annotateRows bs =
      List.zipWith
        (fun r p => (⟨r.country, r.year, r.value, (growthCols p r.value).1, (growthCols p r.value).2⟩ : ProcRow))
        bs (specPrevs none (bs.map fun r => (r.country, r.value))) := by
  rw [annotateRows, prevVals_eq_specPrevs]
  exact (List.pairwise_map).mpr h

theorem annotateRows_get_zero (bs : List BaseRow)
    (h : List.Pairwise (fun a b : BaseRow => CountryLe a.country b.country) bs) :
    (annotateRows bs)[0]? =
      (bs[0]?).map (fun r => (⟨r.country, r.year, r.value, PVal.nan, PVal.nan⟩ : ProcRow)) := by
  rw [annotateRows_sorted_eq bs h, List.getElem?_zipWith, specPrevs_get_zero, List.getElem?_map]
  cases bs with
  | nil => rfl
  | cons hd rest => simp [prevOf, growthCols]

theorem annotateRows_get_succ (bs : List BaseRow)
    (h : List.Pairwise (fun a b : BaseRow => CountryLe a.country b.country) bs) (j : Nat) :
    (annotateRows bs)[j + 1]? =
      match bs[j]?, bs[j + 1]? with
      | some p, some q =>
          some (⟨q.country, q.year, q.value,
                 (growthCols (if p.country = q.country then some p.value else none) q.value).1,
                 (growthCols (if p.country = q.country then some p.value else none) q.value).2⟩ : ProcRow)
      | _, _ => none := by
  rw [annotateRows_sorted_eq bs h, List.getElem?_zipWith, specPrevs_get_succ,
    List.getElem?_map, List.getElem?_map]
  cases hj : bs[j]? with
  | none =>
    have : bs[j + 1]? = none := by
      rw [List.getElem?_eq_none]
      have := List.getElem?_eq_none_iff.mp hj
      omega
    rw [this]
  | some p =>
    cases hj1 : bs[j + 1]? with
    | none => rfl
    | some q => rfl

theorem reannotate_length (rows : List ARow) : (reannotate rows).length = rows.length := by
  rw [reannotate, List.length_zipWith, prevVals_length, List.length_map, min_self]

theorem reannotate_sorted_eq (rows : List ARow)
    (h : List.Pairwise (fun a b : ARow => CountryLe a.country b.country) rows) :
    reannotate rows =
      List.zipWith
        (fun r p =>
          { r with growth_value := (growthCols p (PVal.num r.value)).1,
                   growth_percentage := (growthCols p (PVal.num r.value)).2 })
        rows (specPrevs none (rows.map fun r => (r.country, PVal.num r.value))) := by
  rw [reannotate, prevVals_eq_specPrevs]
  exact (List.pairwise_map).mpr h

theorem reannotate_get_zero (rows : List ARow)
    (h : List.Pairwise (fun a b : ARow => CountryLe a.country b.country) rows) :
    (reannotate rows)[0]? =
      (rows[0]?).map (fun r => { r with growth_value := PVal.nan, growth_percentage := PVal.nan }) := by
  rw [reannotate_sorted_eq rows h, List.getElem?_zipWith, specPrevs_get_zero, List.getElem?_map]
  cases rows with
  | nil => rfl
  | cons hd rest => simp [prevOf, growthCols]

theorem reannotate_get_succ (rows : List ARow)
    (h : List.Pairwise (fun a b : ARow => CountryLe a.country b.country) rows) (j : Nat) :
    (reannotate rows)[j + 1]? =
      match rows[j]?, rows[j + 1]? with
      | some p, some q =>
          some { q with
                 growth_value :=
                   (growthCols (if p.country = q.country then some (PVal.num p.value) else none)
                     (PVal.num q.value)).1,
                 growth_percentage :=
                   (growthCols (if p.country = q.country then some (PVal.num p.value) else none)
                     (PVal.num q.value)).2 }
      | _, _ => none := by
  rw [reannotate_sorted_eq rows h, List.getElem?_zipWith, specPrevs_get_succ,
    List.getElem?_map, List.getElem?_map]
  cases hj : rows[j]? with
  | none =>
    have : rows[j + 1]? = none := by
      rw [List.getElem?_eq_none]
      have := List.getElem?_eq_none_iff.mp hj
      omega
    rw [this]
  | some p =>
    cases hj1 : rows[j + 1]? with
    | none => rfl
    | some q => rfl

/-! ### Sortedness of the pipeline's sorts -/

theorem sorted_insertionSort_rowLe (l : List BaseRow) :
    List.Pairwise RowLe (List.insertionSort RowLe l) := by
  haveI : IsTotal BaseRow RowLe :=
    ⟨fun a b => keyedLe_total _ _ _ (fun x y => PVal.ble_total x y) a b⟩
  haveI : IsTrans BaseRow RowLe :=
    ⟨fun a b c h1 h2 => keyedLe_trans _ _ _ PVal.ble_trans a b c h1 h2⟩
  exact List.sorted_insertionSort RowLe l

theorem rowLe_country {a b : BaseRow} (h : RowLe a b) : CountryLe a.country b.country :=
  keyedLe_country _ _ _ h

theorem sorted_insertionSort_aRowLe (l : List ARow) :
    List.Pairwise ARowLe (List.insertionSort ARowLe l) := by
  haveI : IsTotal ARow ARowLe :=
    ⟨fun a b => keyedLe_total _ _ _ (fun x y : Int => by
      rcases le_total x y with h | h
      · exact Or.inl (by simpa using h)
      · exact Or.inr (by simpa using h)) a b⟩
  haveI : IsTrans ARow ARowLe :=
    ⟨fun a b c h1 h2 => keyedLe_trans _ _ _
      (fun x y z : Int => by
        intro hxy hyz
        simp only [decide_eq_true_eq] at hxy hyz ⊢
        omega) a b c h1 h2⟩
  exact List.sorted_insertionSort ARowLe l

theorem aRowLe_country {a b : ARow} (h : ARowLe a b) : CountryLe a.country b.country :=
  keyedLe_country _ _ _ h

/-! ### C1: row count and verbatim values of the normalizer -/

theorem map_tri_zipWith :
    ∀ (bs : List BaseRow) (ps : List (Option PVal)), ps.length = bs.length →
      ((List.zipWith
        (fun r p => (⟨r.country, r.year, r.value, (growthCols p r.value).1, (growthCols p r.value).2⟩ : ProcRow))
        bs ps).map (fun r => (r.country, r.year, r.value)))
        = bs.map (fun r => (r.country, r.year, r.value)) := by
  intro bs
  induction bs with
  | nil => intro ps _; rfl
  | cons b rest ih =>
    intro ps hlen
    cases ps with
    | nil => exact absurd hlen (by simp)
    | cons p prest =>
      simp only [List.zipWith_cons_cons, List.map_cons]
      rw [ih prest (by simpa using hlen)]

theorem annotateRows_map_tri (bs : List BaseRow) :
    ((annotateRows bs).map (fun r => (r.country, r.year, r.value)))
      = bs.map (fun r => (r.country, r.year, r.value)) := by
  rw [annotateRows, map_tri_zipWith]
  rw [prevVals_length, List.length_map]

theorem explodeRecord_length (r : RawRecord) :
    (explodeRecord r).length = max 1 r.populationCounts.length := by
  rw [explodeRecord]
  cases h : r.populationCounts with
  | nil => simp [h]
  | cons e es => simp [h]

theorem explodeRecord_map_tri (r : RawRecord) :
    ((explodeRecord r).map (fun b => (b.country, b.year, b.value)))
      = (if r.populationCounts = [] then [(r.country, PVal.nan, PVal.nan)]
         else r.populationCounts.map (fun e => (r.country, PVal.num (e.year : ℚ), PVal.num e.value))) := by
  rw [explodeRecord]
  cases h : r.populationCounts with
  | nil => simp
  | cons e es => simp [List.map_map, Function.comp]

/-- CLAIM C1 (amended): for every raw payload, `process_data` produces one
row per `(country, year)` entry plus one NaN placeholder row per record whose
`populationCounts` is empty: the row count is the sum of
`max 1 (len populationCounts)`, and the multiset of `(country, year, value)`
triples of the output is exactly the input entries (values verbatim, with
multiplicity) together with those placeholders. -/
theorem C1_normalize_rows (payload : List RawRecord) :
    (processData payload).length
        = (payload.map (fun r => max 1 r.populationCounts.length)).sum
    ∧ ((processData payload).map (fun r => (r.country, r.year, r.value))).Perm
        (payload.flatMap (fun r =>
          if r.populationCounts = [] then [(r.country, PVal.nan, PVal.nan)]
          else r.populationCounts.map
            (fun e => (r.country, PVal.num (e.year : ℚ), PVal.num e.value)))) := by
  constructor
  · rw [processData, annotateRows_length]
    have hperm := List.perm_insertionSort RowLe (payload.flatMap explodeRecord)
    rw [hperm.length_eq, List.length_flatMap]
    have hfun : (List.length ∘ explodeRecord) = (fun r : RawRecord => max 1 r.populationCounts.length) := by
      funext r
      exact explodeRecord_length r
    rw [hfun]
  · have h1 : ((processData payload).map (fun r => (r.country, r.year, r.value)))
        = (List.insertionSort RowLe (payload.flatMap explodeRecord)).map
            (fun b => (b.country, b.year, b.value)) := by
      rw [processData, annotateRows_map_tri]
    rw [h1]
    have hperm := (List.perm_insertionSort RowLe (payload.flatMap explodeRecord)).map
      (fun b : BaseRow => (b.country, b.year, b.value))
    refine hperm.trans ?_
    rw [List.map_flatMap]
    have : (fun r : RawRecord => (explodeRecord r).map (fun b => (b.country, b.year, b.value)))
        = (fun r : RawRecord =>
            if r.populationCounts = [] then [(r.country, PVal.nan, PVal.nan)]
            else r.populationCounts.map
              (fun e => (r.country, PVal.num (e.year : ℚ), PVal.num e.value))) := by
      funext r
      exact explodeRecord_map_tri r
    rw [this]

theorem countryLe_refl (a : String) : CountryLe a a := Or.inl rfl

theorem countryLe_trans {a b c : String} (h1 : CountryLe a b) (h2 : CountryLe b c) :
    CountryLe a c := by
  rcases h1 with rfl | h1
  · exact h2
  · rcases h2 with rfl | h2
    · exact Or.inr h1
    · exact Or.inr (strLt_trans h1 h2)

theorem countryLe_antisymm {a b : String} (h1 : CountryLe a b) (h2 : CountryLe b a) : a = b := by
  rcases h1 with rfl | h1
  · rfl
  · rcases h2 with rfl | h2
    · rfl
    · have := strLt_trans h1 h2
      rw [strLt_irrefl] at this
      exact absurd this (by simp)

theorem flatMap_congr_mem {α β : Type} {l : List α} {f g : α → List β}
    (h : ∀ a ∈ l, f a = g a) : l.flatMap f = l.flatMap g := by
  induction l with
  | nil => rfl
  | cons a rest ih =>
    simp only [List.flatMap_cons]
    rw [h a (List.mem_cons_self _ _), ih (fun x hx => h x (List.mem_cons_of_mem _ hx))]

theorem explode_allNum (payload : List RawRecord)
    (hne : ∀ r ∈ payload, r.populationCounts ≠ []) :
    ∀ b ∈ payload.flatMap explodeRecord,
      ∃ (c : String) (y : Int) (q : ℚ), b = ⟨c, PVal.num (y : ℚ), PVal.num q⟩ := by
  intro b hb
  rw [List.mem_flatMap] at hb
  obtain ⟨r, hr, hbr⟩ := hb
  rw [explodeRecord, if_neg (hne r hr), List.mem_map] at hbr
  obtain ⟨e, _he, rfl⟩ := hbr
  exact ⟨r.country, e.year, e.value, rfl⟩

theorem sortedExplode_keys_nodup (payload : List RawRecord)
    (hne : ∀ r ∈ payload, r.populationCounts ≠ [])
    (hkeys : (payload.flatMap (fun r => r.populationCounts.map (fun e => (r.country, e.year)))).Nodup) :
    ((List.insertionSort RowLe (payload.flatMap explodeRecord)).map
       (fun b => (b.country, b.year))).Nodup := by
  have hperm := (List.perm_insertionSort RowLe (payload.flatMap explodeRecord)).map
    (fun b : BaseRow => (b.country, b.year))
  rw [hperm.nodup_iff]
  have he : (payload.flatMap explodeRecord).map (fun b => (b.country, b.year))
      = (payload.flatMap (fun r => r.populationCounts.map (fun e => (r.country, e.year)))).map
          (fun k => (k.1, PVal.num (k.2 : ℚ))) := by
    rw [List.map_flatMap, List.map_flatMap]
    apply flatMap_congr_mem
    intro r hr
    rw [explodeRecord, if_neg (hne r hr)]
    rw [List.map_map, List.map_map]
    rfl
  rw [he]
  apply List.Nodup.map ?_ hkeys
  intro x y hxy
  obtain ⟨x1, x2⟩ := x
  obtain ⟨y1, y2⟩ := y
  simp only [Prod.mk.injEq, PVal.num.injEq] at hxy
  obtain ⟨h1, h2⟩ := hxy
  have : x2 = y2 := by exact_mod_cast h2
  rw [h1, this]

theorem pval_ble_refl_eq {x : PVal} : PVal.ble x x = true := PVal.ble_refl x

/-- CLAIM C2: in every table produced by `process_data` from a payload with
non-empty count sequences and globally distinct `(country, year)` keys, the
row carrying a country's minimum year has NaN `growth_value` and
`growth_percentage`, and every other row of that country has a finite
`growth_value`, with `growth_percentage` finite unless the chronologically
preceding row of that country holds the value zero. -/
theorem C2_growth_nullity (payload : List RawRecord)
    (hne : ∀ r ∈ payload, r.populationCounts ≠ [])
    (hkeys : (payload.flatMap (fun r => r.populationCounts.map (fun e => (r.country, e.year)))).Nodup) :
    ∀ row ∈ processData payload,
      ((∀ r2 ∈ processData payload, r2.country = row.country →
          PVal.ble row.year r2.year = true) →
        row.growth_value = PVal.nan ∧ row.growth_percentage = PVal.nan)
      ∧ ((∃ r2 ∈ processData payload, r2.country = row.country ∧
            PVal.ble row.year r2.year = false) →
          row.growth_value.isNum = true ∧
            (row.growth_percentage.isNum = true ∨
              ∃ r2 ∈ processData payload, r2.country = row.country ∧
                r2.value = PVal.num 0 ∧
                PVal.ble r2.year row.year = true ∧ r2.year ≠ row.year ∧
                ∀ r3 ∈ processData payload, r3.country = row.country →
                  PVal.ble r3.year row.year = true → r3.year ≠ row.year →
                  PVal.ble r3.year r2.year = true)) := by
  classical
  set L := List.insertionSort RowLe (payload.flatMap explodeRecord) with hL
  have hT : processData payload = annotateRows L := rfl
  have hsort : List.Pairwise RowLe L := sorted_insertionSort_rowLe _
  have hctry : List.Pairwise (fun a b : BaseRow => CountryLe a.country b.country) L :=
    hsort.imp rowLe_country
  have hnum : ∀ b ∈ L, ∃ (c : String) (y : Int) (q : ℚ), b = ⟨c, PVal.num (y : ℚ), PVal.num q⟩ := by
    intro b hb
    exact explode_allNum payload hne b
      ((List.perm_insertionSort RowLe (payload.flatMap explodeRecord)).subset hb)
  have hnodup : (L.map (fun b => (b.country, b.year))).Nodup :=
    sortedExplode_keys_nodup payload hne hkeys
  have htri : (processData payload).map (fun r => (r.country, r.year, r.value))
      = L.map (fun b => (b.country, b.year, b.value)) := by
    rw [hT, annotateRows_map_tri]
  have htoL : ∀ r ∈ processData payload, ∃ (k : Nat) (b : BaseRow), L[k]? = some b ∧
      r.country = b.country ∧ r.year = b.year ∧ r.value = b.value := by
    intro r hr
    have : (r.country, r.year, r.value) ∈ L.map (fun b => (b.country, b.year, b.value)) := by
      rw [← htri]
      exact List.mem_map_of_mem _ hr
    rw [List.mem_map] at this
    obtain ⟨b, hb, hbe⟩ := this
    obtain ⟨k, hk⟩ := List.mem_iff_getElem?.mp hb
    simp only [Prod.mk.injEq] at hbe
    exact ⟨k, b, hk, hbe.1.symm, hbe.2.1.symm, hbe.2.2.symm⟩
  have hfromL : ∀ (k : Nat) (b : BaseRow), L[k]? = some b →
      ∃ r ∈ processData payload, r.country = b.country ∧ r.year = b.year ∧ r.value = b.value := by
    intro k b hk
    have hb : b ∈ L := by
      have := List.getElem?_eq_some_iff.mp hk
      obtain ⟨h1, h2⟩ := this
      exact h2 ▸ List.getElem_mem h1
    have : (b.country, b.year, b.value) ∈ (processData payload).map
        (fun r => (r.country, r.year, r.value)) := by
      rw [htri]
      exact List.mem_map_of_mem _ hb
    rw [List.mem_map] at this
    obtain ⟨r, hr, hre⟩ := this
    simp only [Prod.mk.injEq] at hre
    exact ⟨r, hr, hre.1, hre.2.1, hre.2.2⟩
  have hpg : ∀ (i j : Nat) (bi bj : BaseRow), i < j → L[i]? = some bi → L[j]? = some bj →
      RowLe bi bj := by
    intro i j bi bj hij hi hj
    obtain ⟨hiL, hieq⟩ := List.getElem?_eq_some_iff.mp hi
    obtain ⟨hjL, hjeq⟩ := List.getElem?_eq_some_iff.mp hj
    have hthis := List.pairwise_iff_getElem.mp hsort i j hiL hjL hij
    rw [hieq, hjeq] at hthis
    exact hthis
  have hkeysne : ∀ (i j : Nat) (bi bj : BaseRow), i < j → L[i]? = some bi → L[j]? = some bj →
      (bi.country, bi.year) ≠ (bj.country, bj.year) := by
    intro i j bi bj hij hi hj
    obtain ⟨hiL, hieq⟩ := List.getElem?_eq_some_iff.mp hi
    obtain ⟨hjL, hjeq⟩ := List.getElem?_eq_some_iff.mp hj
    have hpw : List.Pairwise (fun x y : String × PVal => x ≠ y) (L.map (fun b => (b.country, b.year))) := hnodup
    have hmi : i < (L.map (fun b => (b.country, b.year))).length := by
      rw [List.length_map]; exact hiL
    have hmj : j < (L.map (fun b => (b.country, b.year))).length := by
      rw [List.length_map]; exact hjL
    have hthis := List.pairwise_iff_getElem.mp hpw i j hmi hmj hij
    rw [List.getElem_map, List.getElem_map, hieq, hjeq] at hthis
    exact hthis
  intro row hrow
  obtain ⟨i, hi⟩ := List.mem_iff_getElem?.mp hrow
  rw [hT] at hi
  have caseA : ∀ (i0 : Nat) (bi : BaseRow), L[i0]? = some bi →
      (∀ (k : Nat) (bk : BaseRow), k < i0 → L[k]? = some bk → bk.country ≠ bi.country) →
      row.country = bi.country → row.year = bi.year →
      row.growth_value = PVal.nan → row.growth_percentage = PVal.nan →
      ((∀ r2 ∈ processData payload, r2.country = row.country →
          PVal.ble row.year r2.year = true) →
        row.growth_value = PVal.nan ∧ row.growth_percentage = PVal.nan)
      ∧ ((∃ r2 ∈ processData payload, r2.country = row.country ∧
            PVal.ble row.year r2.year = false) →
          row.growth_value.isNum = true ∧
            (row.growth_percentage.isNum = true ∨
              ∃ r2 ∈ processData payload, r2.country = row.country ∧
                r2.value = PVal.num 0 ∧
                PVal.ble r2.year row.year = true ∧ r2.year ≠ row.year ∧
                ∀ r3 ∈ processData payload, r3.country = row.country →
                  PVal.ble r3.year row.year = true → r3.year ≠ row.year →
                  PVal.ble r3.year r2.year = true)) := by
    intro i0 bi hibi hfirst hrc hry hgv hgp
    have hmin : ∀ r2 ∈ processData payload, r2.country = row.country →
        PVal.ble row.year r2.year = true := by
      intro r2 hr2 hcc
      obtain ⟨k, b2, hk, e1, e2, _e3⟩ := htoL r2 hr2
      have hb2c : b2.country = bi.country := by
        rw [← e1, hcc, hrc]
      rcases Nat.lt_trichotomy k i0 with hki | hki | hki
      · exact absurd hb2c (hfirst k b2 hki hk)
      · subst hki
        rw [hk] at hibi
        have : b2 = bi := Option.some.inj hibi
        rw [hry, ← this, ← e2]
        exact PVal.ble_refl _
      · have hrle := hpg i0 k bi b2 hki hibi hk
        have hble2 := keyedLe_second _ _ _ hrle hb2c.symm
        rw [hry, e2]
        exact hble2
    refine ⟨fun _ => ⟨hgv, hgp⟩, ?_⟩
    rintro ⟨r2, hr2, hcc, hble⟩
    rw [hmin r2 hr2 hcc] at hble
    exact absurd hble (by simp)
  cases i with
  | zero =>
    rw [annotateRows_get_zero L hctry] at hi
    cases h0 : L[0]? with
    | none => rw [h0] at hi; exact absurd hi (by simp)
    | some b0 =>
      rw [h0] at hi
      have hrow_eq : (⟨b0.country, b0.year, b0.value, PVal.nan, PVal.nan⟩ : ProcRow) = row :=
        Option.some.inj hi
      exact caseA 0 b0 h0 (fun k bk hk => by omega)
        (by rw [← hrow_eq]) (by rw [← hrow_eq]) (by rw [← hrow_eq]) (by rw [← hrow_eq])
  | succ j =>
    rw [annotateRows_get_succ L hctry j] at hi
    cases hj : L[j]? with
    | none => rw [hj] at hi; exact absurd hi (by simp)
    | some bj =>
      cases hj1 : L[j + 1]? with
      | none => rw [hj, hj1] at hi; exact absurd hi (by simp)
      | some bi =>
        rw [hj, hj1] at hi
        have hrow_eq0 : (⟨bi.country, bi.year, bi.value,
            (growthCols (if bj.country = bi.country then some bj.value else none) bi.value).1,
            (growthCols (if bj.country = bi.country then some bj.value else none) bi.value).2⟩ : ProcRow)
            = row := Option.some.inj hi
        by_cases hc : bj.country = bi.country
        · -- the interesting case: a later row of the same country
          rw [if_pos hc] at hrow_eq0
          have hrow_eq : (⟨bi.country, bi.year, bi.value,
              (growthCols (some bj.value) bi.value).1,
              (growthCols (some bj.value) bi.value).2⟩ : ProcRow) = row := hrow_eq0
          have hbjL : bj ∈ L := by
            obtain ⟨h1, h2⟩ := List.getElem?_eq_some_iff.mp hj
            exact h2 ▸ List.getElem_mem h1
          have hbiL : bi ∈ L := by
            obtain ⟨h1, h2⟩ := List.getElem?_eq_some_iff.mp hj1
            exact h2 ▸ List.getElem_mem h1
          obtain ⟨cj, yj, qj, hbj_eq⟩ := hnum bj hbjL
          obtain ⟨ci, yi, qi, hbi_eq⟩ := hnum bi hbiL
          have hyease : PVal.ble bj.year bi.year = true :=
            keyedLe_second _ _ _ (hpg j (j + 1) bj bi (by omega) hj hj1) hc
          have hyne : bj.year ≠ bi.year := by
            intro he
            exact hkeysne j (j + 1) bj bi (by omega) hj hj1 (by rw [hc, he])
          have hyjq : (yj : ℚ) ≤ (yi : ℚ) := by
            rw [hbj_eq, hbi_eq] at hyease
            simpa [PVal.ble] using hyease
          have hyneq : (yj : ℚ) ≠ (yi : ℚ) := by
            intro he
            apply hyne
            rw [hbj_eq, hbi_eq]
            simpa using he
          have hylt : (yj : ℚ) < (yi : ℚ) := lt_of_le_of_ne hyjq hyneq
          obtain ⟨r2, hr2T, hr2c, hr2y, hr2v⟩ := hfromL j bj hj
          constructor
          · -- the minimum-year hypothesis is refuted by the preceding row
            intro hminh
            have h1 := hminh r2 hr2T (by rw [hr2c, ← hrow_eq, hc])
            rw [hr2y, ← hrow_eq] at h1
            simp only [hbj_eq, hbi_eq, PVal.ble] at h1
            rw [decide_eq_true_eq] at h1
            exact absurd (le_antisymm h1 hyjq).symm hyneq
          · intro _
            constructor
            · rw [← hrow_eq]
              simp [growthCols, hbj_eq, hbi_eq, PVal.sub, PVal.isNum]
            · by_cases hq : qj = 0
              · right
                refine ⟨r2, hr2T, ?_, ?_, ?_, ?_, ?_⟩
                · rw [hr2c, ← hrow_eq, hc]
                · rw [hr2v, hbj_eq, hq]
                · rw [hr2y, ← hrow_eq, hbj_eq, hbi_eq]
                  simp [PVal.ble, hyjq]
                · rw [hr2y, ← hrow_eq]
                  exact hyne
                · intro r3 hr3 hc3 hble3 hne3
                  obtain ⟨k, b3, hk3, f1, f2, f3⟩ := htoL r3 hr3
                  have hb3c : b3.country = bi.country := by
                    rw [← f1, hc3, ← hrow_eq]
                  obtain ⟨c3, y3, q3, hb3_eq⟩ := hnum b3 (by
                    obtain ⟨h1, h2⟩ := List.getElem?_eq_some_iff.mp hk3
                    exact h2 ▸ List.getElem_mem h1)
                  rcases Nat.lt_trichotomy k (j + 1) with hkj | hkj | hkj
                  · rcases Nat.lt_or_ge k j with hkj2 | hkj2
                    · have hrle := hpg k j b3 bj hkj2 hk3 hj
                      have hble2 := keyedLe_second _ _ _ hrle (by rw [hb3c, hc])
                      rw [f2, hr2y]
                      exact hble2
                    · have hkj3 : k = j := by omega
                      subst hkj3
                      rw [hk3] at hj
                      have hb3bj : b3 = bj := Option.some.inj hj
                      rw [f2, hr2y, hb3bj]
                      exact PVal.ble_refl _
                  · exfalso
                    subst hkj
                    rw [hk3] at hj1
                    have : b3 = bi := Option.some.inj hj1
                    apply hne3
                    rw [f2, this, ← hrow_eq]
                  · exfalso
                    have hrle := hpg (j + 1) k bi b3 hkj hj1 hk3
                    have hble2 := keyedLe_second _ _ _ hrle hb3c.symm
                    rw [hbi_eq, hb3_eq] at hble2
                    simp only [PVal.ble, decide_eq_true_eq] at hble2
                    rw [f2, hb3_eq, ← hrow_eq, hbi_eq] at hble3
                    simp only [PVal.ble, decide_eq_true_eq] at hble3
                    apply hne3
                    rw [f2, hb3_eq, ← hrow_eq, hbi_eq]
                    have : (y3 : ℚ) = (yi : ℚ) := le_antisymm hble3 hble2
                    rw [this]
              · left
                rw [← hrow_eq]
                have hqne : PVal.num qj ≠ PVal.num 0 := by
                  intro he
                  exact hq (PVal.num.inj he)
                simp [growthCols, hbj_eq, hbi_eq, PVal.div, PVal.sub, PVal.mul, PVal.isNum, hq]
        · -- a new country starts at position j+1
          rw [if_neg hc] at hrow_eq0
          have hrow_eq : (⟨bi.country, bi.year, bi.value,
              (growthCols none bi.value).1,
              (growthCols none bi.value).2⟩ : ProcRow) = row := hrow_eq0
          have hfirst : ∀ (k : Nat) (bk : BaseRow), k < j + 1 → L[k]? = some bk →
              bk.country ≠ bi.country := by
            intro k bk hkj hk hkc
            rcases Nat.lt_or_ge k j with hkj2 | hkj2
            · have h1 := rowLe_country (hpg k j bk bj hkj2 hk hj)
              have h2 := rowLe_country (hpg j (j + 1) bj bi (by omega) hj hj1)
              rw [hkc] at h1
              exact hc (countryLe_antisymm h2 h1)
            · have hkj3 : k = j := by omega
              subst hkj3
              rw [hk] at hj
              have : bk = bj := Option.some.inj hj
              rw [this] at hkc
              exact hc hkc
          exact caseA (j + 1) bi hj1 hfirst
            (by rw [← hrow_eq]) (by rw [← hrow_eq])
            (by rw [← hrow_eq]; rfl) (by rw [← hrow_eq]; rfl)

/-- CLAIM C3 (amended): when the chronologically preceding same-country value
is zero, the computed `growth_percentage` is non-finite — `+inf`/`-inf` from
the division by zero, or NaN when the current value is also zero — and in
particular it is never the finite number zero.  (The claim's stronger
assertion that it is always NaN is refuted by `C3_counterexample`.) -/
theorem C3_zero_denominator (payload : List RawRecord)
    (hne : ∀ r ∈ payload, r.populationCounts ≠ [])
    (hkeys : (payload.flatMap (fun r => r.populationCounts.map (fun e => (r.country, e.year)))).Nodup) :
    ∀ row ∈ processData payload,
      (∃ r2 ∈ processData payload, r2.country = row.country ∧ r2.value = PVal.num 0 ∧
          PVal.ble r2.year row.year = true ∧ r2.year ≠ row.year ∧
          ∀ r3 ∈ processData payload, r3.country = row.country →
            PVal.ble r3.year row.year = true → r3.year ≠ row.year →
            PVal.ble r3.year r2.year = true) →
        row.growth_percentage.isNum = false ∧ row.growth_percentage ≠ PVal.num 0 := by
  classical
  set L := List.insertionSort RowLe (payload.flatMap explodeRecord) with hL
  have hT : processData payload = annotateRows L := rfl
  have hsort : List.Pairwise RowLe L := sorted_insertionSort_rowLe _
  have hctry : List.Pairwise (fun a b : BaseRow => CountryLe a.country b.country) L :=
    hsort.imp rowLe_country
  have hnum : ∀ b ∈ L, ∃ (c : String) (y : Int) (q : ℚ), b = ⟨c, PVal.num (y : ℚ), PVal.num q⟩ := by
    intro b hb
    exact explode_allNum payload hne b
      ((List.perm_insertionSort RowLe (payload.flatMap explodeRecord)).subset hb)
  have hnodup : (L.map (fun b => (b.country, b.year))).Nodup :=
    sortedExplode_keys_nodup payload hne hkeys
  have htri : (processData payload).map (fun r => (r.country, r.year, r.value))
      = L.map (fun b => (b.country, b.year, b.value)) := by
    rw [hT, annotateRows_map_tri]
  have htoL : ∀ r ∈ processData payload, ∃ (k : Nat) (b : BaseRow), L[k]? = some b ∧
      r.country = b.country ∧ r.year = b.year ∧ r.value = b.value := by
    intro r hr
    have hx : (r.country, r.year, r.value) ∈ L.map (fun b => (b.country, b.year, b.value)) := by
      rw [← htri]
      exact List.mem_map_of_mem _ hr
    rw [List.mem_map] at hx
    obtain ⟨b, hb, hbe⟩ := hx
    obtain ⟨k, hk⟩ := List.mem_iff_getElem?.mp hb
    simp only [Prod.mk.injEq] at hbe
    exact ⟨k, b, hk, hbe.1.symm, hbe.2.1.symm, hbe.2.2.symm⟩
  have hfromL : ∀ (k : Nat) (b : BaseRow), L[k]? = some b →
      ∃ r ∈ processData payload, r.country = b.country ∧ r.year = b.year ∧ r.value = b.value := by
    intro k b hk
    have hb : b ∈ L := by
      obtain ⟨h1, h2⟩ := List.getElem?_eq_some_iff.mp hk
      exact h2 ▸ List.getElem_mem h1
    have hx : (b.country, b.year, b.value) ∈ (processData payload).map
        (fun r => (r.country, r.year, r.value)) := by
      rw [htri]
      exact List.mem_map_of_mem _ hb
    rw [List.mem_map] at hx
    obtain ⟨r, hr, hre⟩ := hx
    simp only [Prod.mk.injEq] at hre
    exact ⟨r, hr, hre.1, hre.2.1, hre.2.2⟩
  have hpg : ∀ (i j : Nat) (bi bj : BaseRow), i < j → L[i]? = some bi → L[j]? = some bj →
      RowLe bi bj := by
    intro i j bi bj hij hi hj
    obtain ⟨hiL, hieq⟩ := List.getElem?_eq_some_iff.mp hi
    obtain ⟨hjL, hjeq⟩ := List.getElem?_eq_some_iff.mp hj
    have hthis := List.pairwise_iff_getElem.mp hsort i j hiL hjL hij
    rw [hieq, hjeq] at hthis
    exact hthis
  have hkeysne : ∀ (i j : Nat) (bi bj : BaseRow), i < j → L[i]? = some bi → L[j]? = some bj →
      (bi.country, bi.year) ≠ (bj.country, bj.year) := by
    intro i j bi bj hij hi hj
    obtain ⟨hiL, hieq⟩ := List.getElem?_eq_some_iff.mp hi
    obtain ⟨hjL, hjeq⟩ := List.getElem?_eq_some_iff.mp hj
    have hpw : List.Pairwise (fun x y : String × PVal => x ≠ y)
        (L.map (fun b => (b.country, b.year))) := hnodup
    have hmi : i < (L.map (fun b => (b.country, b.year))).length := by
      rw [List.length_map]; exact hiL
    have hmj : j < (L.map (fun b => (b.country, b.year))).length := by
      rw [List.length_map]; exact hjL
    have hthis := List.pairwise_iff_getElem.mp hpw i j hmi hmj hij
    rw [List.getElem_map, List.getElem_map, hieq, hjeq] at hthis
    exact hthis
  intro row hrow hpred
  obtain ⟨i, hi⟩ := List.mem_iff_getElem?.mp hrow
  rw [hT] at hi
  cases i with
  | zero =>
    rw [annotateRows_get_zero L hctry] at hi
    cases h0 : L[0]? with
    | none => rw [h0] at hi; exact absurd hi (by simp)
    | some b0 =>
      rw [h0] at hi
      have hrow_eq : (⟨b0.country, b0.year, b0.value, PVal.nan, PVal.nan⟩ : ProcRow) = row :=
        Option.some.inj hi
      constructor
      · rw [← hrow_eq]; rfl
      · rw [← hrow_eq]; simp
  | succ j =>
    rw [annotateRows_get_succ L hctry j] at hi
    cases hj : L[j]? with
    | none => rw [hj] at hi; exact absurd hi (by simp)
    | some bj =>
      cases hj1 : L[j + 1]? with
      | none => rw [hj, hj1] at hi; exact absurd hi (by simp)
      | some bi =>
        rw [hj, hj1] at hi
        have hrow_eq0 : (⟨bi.country, bi.year, bi.value,
            (growthCols (if bj.country = bi.country then some bj.value else none) bi.value).1,
            (growthCols (if bj.country = bi.country then some bj.value else none) bi.value).2⟩ : ProcRow)
            = row := Option.some.inj hi
        by_cases hc : bj.country = bi.country
        · rw [if_pos hc] at hrow_eq0
          have hbjL : bj ∈ L := by
            obtain ⟨h1, h2⟩ := List.getElem?_eq_some_iff.mp hj
            exact h2 ▸ List.getElem_mem h1
          have hbiL : bi ∈ L := by
            obtain ⟨h1, h2⟩ := List.getElem?_eq_some_iff.mp hj1
            exact h2 ▸ List.getElem_mem h1
          obtain ⟨cj, yj, qj, hbj_eq⟩ := hnum bj hbjL
          obtain ⟨ci, yi, qi, hbi_eq⟩ := hnum bi hbiL
          -- locate the hypothesis' predecessor row: it must be the row of bj
          obtain ⟨r2, hr2, hcc, hv0, hble, hne2, hmax⟩ := hpred
          obtain ⟨k, b2, hk, e1, e2, e3⟩ := htoL r2 hr2
          have hb2c : b2.country = bi.country := by
            rw [← e1, hcc, ← hrow_eq0]
          have hqj0 : bj.value = PVal.num 0 := by
            -- show k = j, hence b2 = bj
            rcases Nat.lt_trichotomy k (j + 1) with hkj | hkj | hkj
            · rcases Nat.lt_or_ge k j with hkj2 | hkj2
              · exfalso
                -- r2 is not maximal: the row of bj lies strictly between
                obtain ⟨r3, hr3, g1, g2, g3⟩ := hfromL j bj hj
                have hble1 : PVal.ble b2.year bj.year = true :=
                  keyedLe_second _ _ _ (hpg k j b2 bj hkj2 hk hj) (by rw [hb2c, hc])
                have hble2 : PVal.ble bj.year bi.year = true :=
                  keyedLe_second _ _ _ (hpg j (j + 1) bj bi (by omega) hj hj1) hc
                have hyne : bj.year ≠ bi.year := by
                  intro he
                  exact hkeysne j (j + 1) bj bi (by omega) hj hj1 (by rw [hc, he])
                have hmax3 := hmax r3 hr3 (by rw [g1, hc, ← hrow_eq0])
                  (by rw [g2, ← hrow_eq0]; exact hble2)
                  (by rw [g2, ← hrow_eq0]; exact hyne)
                rw [g2, e2] at hmax3
                -- now bj.year ≤ b2.year and b2.year ≤ bj.year, so keys collide
                have hyeq : b2.year = bj.year := by
                  obtain ⟨c2x, y2x, q2x, hb2_eq⟩ := hnum b2 (by
                    obtain ⟨h1, h2⟩ := List.getElem?_eq_some_iff.mp hk
                    exact h2 ▸ List.getElem_mem h1)
                  rw [hb2_eq, hbj_eq] at hble1 hmax3 ⊢
                  simp only [PVal.ble, decide_eq_true_eq] at hble1 hmax3
                  rw [le_antisymm hble1 hmax3]
                exact hkeysne k j b2 bj hkj2 hk hj (by rw [hyeq, hb2c, hc])
              · have hkj3 : k = j := by omega
                subst hkj3
                rw [hk] at hj
                have hb2bj : b2 = bj := Option.some.inj hj
                rw [← hb2bj, ← e3]
                exact hv0
            · exfalso
              subst hkj
              rw [hk] at hj1
              have hb2bi : b2 = bi := Option.some.inj hj1
              apply hne2
              rw [e2, hb2bi, ← hrow_eq0]
            · exfalso
              -- a later row of the same country has a later year
              have hble2 := keyedLe_second _ _ _ (hpg (j + 1) k bi b2 hkj hj1 hk) hb2c.symm
              obtain ⟨c2x, y2x, q2x, hb2_eq⟩ := hnum b2 (by
                obtain ⟨h1, h2⟩ := List.getElem?_eq_some_iff.mp hk
                exact h2 ▸ List.getElem_mem h1)
              rw [e2, hb2_eq, ← hrow_eq0, hbi_eq] at hble
              rw [hbi_eq, hb2_eq] at hble2
              simp only [PVal.ble, decide_eq_true_eq] at hble hble2
              apply hne2
              rw [e2, hb2_eq, ← hrow_eq0, hbi_eq]
              rw [le_antisymm hble hble2]
          rw [hbj_eq] at hqj0
          have hqj : qj = 0 := PVal.num.inj hqj0
          rw [← hrow_eq0]
          rcases lt_trichotomy qi 0 with hqi | hqi | hqi
          · constructor
            · simp [growthCols, hbj_eq, hbi_eq, hqj, PVal.div, PVal.sub, PVal.mul, PVal.isNum,
                hqi, not_lt_of_gt hqi]
            · simp [growthCols, hbj_eq, hbi_eq, hqj, PVal.div, PVal.sub, PVal.mul,
                hqi, not_lt_of_gt hqi]
          · constructor
            · simp [growthCols, hbj_eq, hbi_eq, hqj, hqi, PVal.div, PVal.sub, PVal.mul, PVal.isNum]
            · simp [growthCols, hbj_eq, hbi_eq, hqj, hqi, PVal.div, PVal.sub, PVal.mul]
          · constructor
            · simp [growthCols, hbj_eq, hbi_eq, hqj, PVal.div, PVal.sub, PVal.mul, PVal.isNum,
                hqi, not_lt_of_gt hqi]
            · simp [growthCols, hbj_eq, hbi_eq, hqj, PVal.div, PVal.sub, PVal.mul,
                hqi, not_lt_of_gt hqi]
        · rw [if_neg hc] at hrow_eq0
          constructor
          · rw [← hrow_eq0]; rfl
          · rw [← hrow_eq0]; simp [growthCols]

/-- CLAIM C1, as stated, fails: a record with an empty `populationCounts`
still contributes one (NaN placeholder) row, so the row count exceeds the sum
of the sequence lengths. -/
theorem C1_counterexample :
    (processData c1Payload).length ≠ (c1Payload.map (fun r => r.populationCounts.length)).sum := by
  decide

/-- Witness: CLAIM C2 instantiated on the spec's running example payload. -/
theorem C2_growth_nullity_witness :
    ((∀ r ∈ exPayload, r.populationCounts ≠ []) ∧
      (exPayload.flatMap (fun r => r.populationCounts.map (fun e => (r.country, e.year)))).Nodup) ∧
    (∀ row ∈ processData exPayload,
      ((∀ r2 ∈ processData exPayload, r2.country = row.country →
          PVal.ble row.year r2.year = true) →
        row.growth_value = PVal.nan ∧ row.growth_percentage = PVal.nan)
      ∧ ((∃ r2 ∈ processData exPayload, r2.country = row.country ∧
            PVal.ble row.year r2.year = false) →
          row.growth_value.isNum = true ∧
            (row.growth_percentage.isNum = true ∨
              ∃ r2 ∈ processData exPayload, r2.country = row.country ∧
                r2.value = PVal.num 0 ∧
                PVal.ble r2.year row.year = true ∧ r2.year ≠ row.year ∧
                ∀ r3 ∈ processData exPayload, r3.country = row.country →
                  PVal.ble r3.year row.year = true → r3.year ≠ row.year →
                  PVal.ble r3.year r2.year = true))) :=
  ⟨⟨by decide, by decide⟩, C2_growth_nullity exPayload (by decide) (by decide)⟩

/-- CLAIM C3, as stated, fails: on a country whose first value is zero, the
very next `growth_percentage` is `+inf` — a non-finite value, but not the
NaN ("not a number") the claim promises. -/
theorem C3_counterexample :
    (processData c3Payload).map (fun r => r.growth_percentage) = [PVal.nan, PVal.posInf] ∧
    ¬ (∀ row ∈ processData c3Payload,
        (∃ r2 ∈ processData c3Payload, r2.country = row.country ∧ r2.value = PVal.num 0 ∧
            PVal.ble r2.year row.year = true ∧ r2.year ≠ row.year ∧
            ∀ r3 ∈ processData c3Payload, r3.country = row.country →
              PVal.ble r3.year row.year = true → r3.year ≠ row.year →
              PVal.ble r3.year r2.year = true) →
          row.growth_percentage.isNan = true) := by
  constructor
  · decide
  · decide

/-- Witness: CLAIM C3 (amended) instantiated on the zero-start payload. -/
theorem C3_zero_denominator_witness :
    ((∀ r ∈ c3Payload, r.populationCounts ≠ []) ∧
      (c3Payload.flatMap (fun r => r.populationCounts.map (fun e => (r.country, e.year)))).Nodup) ∧
    (∀ row ∈ processData c3Payload,
      (∃ r2 ∈ processData c3Payload, r2.country = row.country ∧ r2.value = PVal.num 0 ∧
          PVal.ble r2.year row.year = true ∧ r2.year ≠ row.year ∧
          ∀ r3 ∈ processData c3Payload, r3.country = row.country →
            PVal.ble r3.year row.year = true → r3.year ≠ row.year →
            PVal.ble r3.year r2.year = true) →
        row.growth_percentage.isNum = false ∧ row.growth_percentage ≠ PVal.num 0) :=
  ⟨⟨by decide, by decide⟩, C3_zero_denominator c3Payload (by decide) (by decide)⟩

/-- CLAIM C4 (amended): on a zero-row table `calculate_statistics` does fail
and the failure is propagated, but it is the pandas `ValueError` from taking
`idxmax` of the empty latest-year cross-section — there is no
`EmptyDatasetError` anywhere in the code. -/
theorem C4_empty_table_error :
    calculateStatistics ([] : List ARow) = Except.error PyError.valueError := by
  decide

/-- CLAIM C4, as stated, fails: the error raised on a zero-row table is not
the specified `EmptyDatasetError` (no such exception class exists in the
source). -/
theorem C4_counterexample :
    calculateStatistics ([] : List ARow) ≠ Except.error PyError.emptyDatasetError := by
  decide

/-! ### C5: the average annual growth is a mean of yearly means -/

theorem filterMap_congr_mem {α β : Type} {l : List α} {f g : α → Option β}
    (h : ∀ a ∈ l, f a = g a) : l.filterMap f = l.filterMap g := by
  induction l with
  | nil => rfl
  | cons a rest ih =>
    rw [List.filterMap_cons, List.filterMap_cons, h a (List.mem_cons_self _ _),
      ih (fun x hx => h x (List.mem_cons_of_mem _ hx))]

theorem filter_notNan_eq_filterMap (xs : List PVal)
    (h : ∀ v ∈ xs, v.isNum = true ∨ v.isNan = true) :
    xs.filter (fun v => !v.isNan) = (xs.filterMap PVal.toNum).map PVal.num := by
  induction xs with
  | nil => rfl
  | cons v rest ih =>
    have hv := h v (List.mem_cons_self _ _)
    have hrest := ih (fun x hx => h x (List.mem_cons_of_mem _ hx))
    cases v with
    | num q =>
      rw [List.filter_cons_of_pos (by rfl), List.filterMap_cons_some (by rfl), List.map_cons, hrest]
    | nan =>
      rw [List.filter_cons_of_neg (by simp [PVal.isNan]), List.filterMap_cons_none (by rfl)]
      exact hrest
    | posInf => simp [PVal.isNum, PVal.isNan] at hv
    | negInf => simp [PVal.isNum, PVal.isNan] at hv

theorem foldl_add_num (l : List ℚ) : ∀ a : ℚ,
    (l.map PVal.num).foldl PVal.add (PVal.num a) = PVal.num (l.foldl qadd a) := by
  induction l with
  | nil => intro a; rfl
  | cons q rest ih =>
    intro a
    simp only [List.map_cons, List.foldl_cons]
    rw [show PVal.add (PVal.num a) (PVal.num q) = PVal.num (qadd a q) from rfl, ih]

theorem meanSkipNan_char (xs : List PVal)
    (h : ∀ v ∈ xs, v.isNum = true ∨ v.isNan = true) :
    meanSkipNan xs =
      match qMean (xs.filterMap PVal.toNum) with
      | none => PVal.nan
      | some q => PVal.num q := by
  rw [meanSkipNan, filter_notNan_eq_filterMap xs h]
  cases hfm : xs.filterMap PVal.toNum with
  | nil => simp [qMean]
  | cons q rest =>
    have hne : ¬((q :: rest).map PVal.num).isEmpty = true := by simp
    simp only [hne, if_false, qMean, List.isEmpty_cons, Bool.false_eq_true, if_false]
    rw [foldl_add_num]
    have hlen : ((q :: rest).map PVal.num).length = (q :: rest).length := List.length_map _ _
    rw [hlen]
    have hlenq : ((q :: rest).length : ℚ) ≠ 0 := by
      simp only [List.length_cons]
      push_cast
      positivity
    show PVal.div (PVal.num ((q :: rest).foldl qadd 0)) (PVal.num ((q :: rest).length : ℚ))
        = PVal.num (qdiv (qsum (q :: rest)) ((q :: rest).length : ℚ))
    rw [PVal.div, if_neg hlenq]
    rfl

theorem meanSkipNan_shape (xs : List PVal)
    (h : ∀ v ∈ xs, v.isNum = true ∨ v.isNan = true) :
    (meanSkipNan xs).isNum = true ∨ (meanSkipNan xs).isNan = true := by
  rw [meanSkipNan_char xs h]
  cases qMean (xs.filterMap PVal.toNum) with
  | none => right; rfl
  | some q => left; rfl

/-- CLAIM C5: for every annotated table all of whose growth percentages are
finite or NaN, the summarizer's `avg_annual_growth_percentage` is the mean
over distinct years of the per-year mean of `growth_percentage` with
undefined values ignored — a mean of yearly means, not a flat mean. -/
theorem C5_avg_annual_growth (df : List ARow) (s : Stats)
    (hfin : ∀ r ∈ df, r.growth_percentage.isNum = true ∨ r.growth_percentage.isNan = true)
    (hok : calculateStatistics df = Except.ok s) :
    s.avg_annual_growth_percentage = specAvgAnnual df := by
  have havg : s.avg_annual_growth_percentage
      = meanSkipNan ((sortedYears df).map (fun y => meanSkipNan (groupGp df y))) := by
    simp only [calculateStatistics] at hok
    split at hok
    · exact absurd hok (by simp)
    · split at hok
      · exact absurd hok (by simp)
      · split at hok
        · exact absurd hok (by simp)
        · split at hok
          · exact absurd hok (by simp)
          · have hfields := Except.ok.inj hok
            rw [← hfields]
  have hgroup : ∀ y : Int, ∀ v ∈ groupGp df y, v.isNum = true ∨ v.isNan = true := by
    intro y v hv
    rw [groupGp, List.mem_map] at hv
    obtain ⟨r, hr, rfl⟩ := hv
    exact hfin r (List.mem_of_mem_filter hr)
  have hyear : ∀ y : Int, meanSkipNan (groupGp df y)
      = match qMean (definedGrowths df y) with
        | none => PVal.nan
        | some q => PVal.num q := by
    intro y
    rw [meanSkipNan_char _ (hgroup y)]
    have : (groupGp df y).filterMap PVal.toNum = definedGrowths df y := by
      rw [groupGp, definedGrowths, List.filterMap_map]
      rfl
    rw [this]
  have houter : ∀ v ∈ (sortedYears df).map (fun y => meanSkipNan (groupGp df y)),
      v.isNum = true ∨ v.isNan = true := by
    intro v hv
    rw [List.mem_map] at hv
    obtain ⟨y, _hy, rfl⟩ := hv
    exact meanSkipNan_shape _ (hgroup y)
  rw [havg, meanSkipNan_char _ houter, List.filterMap_map, specAvgAnnual]
  have : (sortedYears df).filterMap (PVal.toNum ∘ fun y => meanSkipNan (groupGp df y))
      = (sortedYears df).filterMap (fun y => qMean (definedGrowths df y)) := by
    apply filterMap_congr_mem
    intro y _hy
    show PVal.toNum (meanSkipNan (groupGp df y)) = qMean (definedGrowths df y)
    rw [hyear y]
    cases qMean (definedGrowths df y) with
    | none => rfl
    | some q => rfl
  rw [this]

/-- Witness: CLAIM C5 instantiated on the spec's example table (the average
annual growth of `exTable` is 10, the mean of the yearly means 10 and 10). -/
theorem C5_avg_annual_growth_witness :
    ((∀ r ∈ exTable, r.growth_percentage.isNum = true ∨ r.growth_percentage.isNan = true) ∧
      calculateStatistics exTable = Except.ok exStats) ∧
    exStats.avg_annual_growth_percentage = specAvgAnnual exTable :=
  ⟨⟨by decide, by decide⟩, C5_avg_annual_growth exTable exStats (by decide) (by decide)⟩

/-! ### C6: tie-breaks select the first row in table order -/

theorem foldFirstBest {α : Type} (blt : α → α → Bool) (f : α → α → α)
    (hf : ∀ b x, f b x = if blt b x = true then x else b)
    (htrans : ∀ a b c, blt a b = true → blt b c = true → blt a c = true)
    (hmix : ∀ r a x, blt r a = false → blt r x = true → blt a x = true) :
    ∀ (l : List α) (r : α),
      (l.foldl f r = r ∧ ∀ x ∈ l, blt r x = false) ∨
      (∃ l₁ x l₂, l = l₁ ++ x :: l₂ ∧ l.foldl f r = x ∧ blt r x = true ∧
        (∀ y ∈ r :: l₁, blt y x = true) ∧ (∀ y ∈ l₂, blt x y = false)) := by
  intro l
  induction l with
  | nil => intro r; exact Or.inl ⟨rfl, by simp⟩
  | cons a l ih =>
    intro r
    have hstep : (a :: l).foldl f r = l.foldl f (f r a) := by rw [List.foldl_cons]
    cases hra : blt r a with
    | true =>
      have hfa : f r a = a := by rw [hf, hra, if_pos rfl]
      rcases ih a with ⟨h1, h2⟩ | ⟨l₁, x, l₂, hsplit, hfold, hax, hpre, hsuf⟩
      · refine Or.inr ⟨[], a, l, rfl, ?_, hra, ?_, h2⟩
        · rw [hstep, hfa, h1]
        · intro y hy
          rcases List.mem_cons.mp hy with rfl | hy
          · exact hra
          · exact absurd hy (List.not_mem_nil _)
      · refine Or.inr ⟨a :: l₁, x, l₂, by rw [hsplit, List.cons_append], ?_, htrans r a x hra hax, ?_, hsuf⟩
        · rw [hstep, hfa, hfold]
        · intro y hy
          rcases List.mem_cons.mp hy with rfl | hy
          · exact htrans y a x hra hax
          · exact hpre y hy
    | false =>
      have hfa : f r a = r := by rw [hf, hra]; simp
      rcases ih r with ⟨h1, h2⟩ | ⟨l₁, x, l₂, hsplit, hfold, hrx, hpre, hsuf⟩
      · refine Or.inl ⟨by rw [hstep, hfa, h1], ?_⟩
        intro y hy
        rcases List.mem_cons.mp hy with rfl | hy
        · exact hra
        · exact h2 y hy
      · refine Or.inr ⟨a :: l₁, x, l₂, by rw [hsplit, List.cons_append], ?_, hrx, ?_, hsuf⟩
        · rw [hstep, hfa, hfold]
        · intro y hy
          rcases List.mem_cons.mp hy with rfl | hy
          · exact hrx
          · rcases List.mem_cons.mp hy with rfl | hy
            · exact hmix r y x hra hrx
            · exact hpre y (List.mem_cons_of_mem _ hy)
    
theorem find?_of_split {α : Type} (p : α → Bool) :
    ∀ (l₁ : List α) (a : α) (l₂ : List α), (∀ x ∈ l₁, p x = false) → p a = true →
      (l₁ ++ a :: l₂).find? p = some a := by
  intro l₁
  induction l₁ with
  | nil =>
    intro a l₂ _ hpa
    rw [List.nil_append]
    exact List.find?_cons_of_pos _ hpa
  | cons b l₁ ih =>
    intro a l₂ hpre hpa
    rw [List.cons_append, List.find?_cons_of_neg _ (by
      rw [hpre b (List.mem_cons_self _ _)]
      simp)]
    exact ih a l₂ (fun x hx => hpre x (List.mem_cons_of_mem _ hx)) hpa

theorem find?_split {α : Type} (p : α → Bool) :
    ∀ (l : List α) (a : α), l.find? p = some a →
      ∃ l₁ l₂, l = l₁ ++ a :: l₂ ∧ ∀ x ∈ l₁, p x = false := by
  intro l
  induction l with
  | nil => intro a h; exact absurd h (by simp)
  | cons b l ih =>
    intro a h
    cases hpb : p b with
    | true =>
      rw [List.find?_cons_of_pos _ hpb] at h
      obtain rfl := Option.some.inj h
      exact ⟨[], l, rfl, by simp⟩
    | false =>
      rw [List.find?_cons_of_neg _ (by rw [hpb]; simp)] at h
      obtain ⟨l₁, l₂, rfl, hpre⟩ := ih a h
      refine ⟨b :: l₁, l₂, rfl, ?_⟩
      intro x hx
      rcases List.mem_cons.mp hx with rfl | hx
      · exact hpb
      · exact hpre x hx

theorem find?_filter {α : Type} (q p : α → Bool) :
    ∀ l : List α, (l.filter q).find? p = l.find? (fun x => q x && p x) := by
  intro l
  induction l with
  | nil => rfl
  | cons a l ih =>
    cases hq : q a with
    | true =>
      rw [List.filter_cons_of_pos hq]
      cases hp : p a with
      | true =>
        rw [List.find?_cons_of_pos _ hp, List.find?_cons_of_pos _ (by rw [hq, hp]; rfl)]
      | false =>
        rw [List.find?_cons_of_neg _ (by rw [hp]; simp),
          List.find?_cons_of_neg _ (by rw [hq, hp]; simp), ih]
    | false =>
      rw [List.filter_cons_of_neg (by rw [hq]; simp),
        List.find?_cons_of_neg _ (by rw [hq]; simp), ih]

theorem firstMaxPVal_some_eq_foldl :
    ∀ (l : List (String × PVal)) (b : String × PVal), (∀ x ∈ l, x.2.isNan = false) →
      firstMaxPVal (some b) l
        = some (l.foldl (fun b x => if PVal.ble x.2 b.2 then b else x) b) := by
  intro l
  induction l with
  | nil => intro b _; rfl
  | cons hd rest ih =>
    intro b hnn
    obtain ⟨c, v⟩ := hd
    obtain ⟨c0, w⟩ := b
    have hv : v.isNan = false := hnn (c, v) (List.mem_cons_self _ _)
    show (if v.isNan = true then firstMaxPVal (some (c0, w)) rest
          else if PVal.ble v w then firstMaxPVal (some (c0, w)) rest
          else firstMaxPVal (some (c, v)) rest) = _
    rw [hv]
    simp only [Bool.false_eq_true, if_false, List.foldl_cons]
    cases hbw : PVal.ble v w with
    | true =>
      rw [if_pos rfl, ih (c0, w) (fun x hx => hnn x (List.mem_cons_of_mem _ hx))]
      simp [hbw]
    | false =>
      rw [if_neg (by simp), ih (c, v) (fun x hx => hnn x (List.mem_cons_of_mem _ hx))]
      simp [hbw]

theorem firstMaxPVal_cons (p : String × PVal) (rest : List (String × PVal))
    (hp : p.2.isNan = false) :
    firstMaxPVal none (p :: rest) = firstMaxPVal (some p) rest := by
  obtain ⟨c, v⟩ := p
  show (if v.isNan = true then firstMaxPVal none rest else firstMaxPVal (some (c, v)) rest) = _
  rw [hp]
  simp

theorem firstMinPVal_some_eq_foldl :
    ∀ (l : List (String × PVal)) (b : String × PVal), (∀ x ∈ l, x.2.isNan = false) →
      firstMinPVal (some b) l
        = some (l.foldl (fun b x => if PVal.ble b.2 x.2 then b else x) b) := by
  intro l
  induction l with
  | nil => intro b _; rfl
  | cons hd rest ih =>
    intro b hnn
    obtain ⟨c, v⟩ := hd
    obtain ⟨c0, w⟩ := b
    have hv : v.isNan = false := hnn (c, v) (List.mem_cons_self _ _)
    show (if v.isNan = true then firstMinPVal (some (c0, w)) rest
          else if PVal.ble w v then firstMinPVal (some (c0, w)) rest
          else firstMinPVal (some (c, v)) rest) = _
    rw [hv]
    simp only [Bool.false_eq_true, if_false, List.foldl_cons]
    cases hbw : PVal.ble w v with
    | true =>
      rw [if_pos rfl, ih (c0, w) (fun x hx => hnn x (List.mem_cons_of_mem _ hx))]
      simp [hbw]
    | false =>
      rw [if_neg (by simp), ih (c, v) (fun x hx => hnn x (List.mem_cons_of_mem _ hx))]
      simp [hbw]

theorem firstMinPVal_cons (p : String × PVal) (rest : List (String × PVal))
    (hp : p.2.isNan = false) :
    firstMinPVal none (p :: rest) = firstMinPVal (some p) rest := by
  obtain ⟨c, v⟩ := p
  show (if v.isNan = true then firstMinPVal none rest else firstMinPVal (some (c, v)) rest) = _
  rw [hp]
  simp

theorem sorted_insertionSort_strLe (l : List String) :
    List.Pairwise StrLe (List.insertionSort StrLe l) := by
  haveI : IsTotal String StrLe := ⟨fun a b => by
    unfold StrLe
    cases hab : strLt b a with
    | true =>
      right
      rw [strLt_asymm hab]
      rfl
    | false =>
      left
      rfl⟩
  haveI : IsTrans String StrLe := ⟨fun a b c h1 h2 => by
    unfold StrLe at h1 h2 ⊢
    rw [Bool.not_eq_true'] at h1 h2 ⊢
    cases hca : strLt c a with
    | false => rfl
    | true =>
      exfalso
      cases hbc : strLt b c with
      | true =>
        have := strLt_trans hbc hca
        rw [h1] at this
        exact Bool.false_ne_true this
      | false =>
        have hbceq : c = b := strLt_connex h2 hbc
        rw [hbceq] at hca
        rw [h1] at hca
        exact Bool.false_ne_true hca⟩
  exact List.sorted_insertionSort StrLe l

theorem sortedCountries_mem (df : List ARow) (c : String) :
    c ∈ sortedCountries df ↔ ∃ r ∈ df, r.country = c := by
  rw [sortedCountries, (List.perm_insertionSort StrLe _).mem_iff, List.mem_dedup, List.mem_map]

theorem sortedCountries_nodup (df : List ARow) : (sortedCountries df).Nodup :=
  (List.perm_insertionSort StrLe _).nodup_iff.mpr (List.nodup_dedup _)

theorem sortedCountries_strict (df : List ARow) :
    List.Pairwise (fun a b => strLt a b = true) (sortedCountries df) := by
  have h1 := sorted_insertionSort_strLe ((df.map (fun r => r.country)).dedup)
  have h2 : List.Pairwise (fun a b : String => a ≠ b) (sortedCountries df) :=
    sortedCountries_nodup df
  have h3 := h1.and h2
  apply h3.imp
  intro a b hab
  obtain ⟨hle, hne⟩ := hab
  unfold StrLe at hle
  rw [Bool.not_eq_true'] at hle
  cases hab2 : strLt a b with
  | true => rfl
  | false => exact absurd (strLt_connex hab2 hle) hne

theorem first_pred_country (df : List ARow) (pred : ARow → Bool) (Pc : String → Prop)
    (hsort : List.Pairwise ARowLe df)
    (h1 : ∀ r ∈ df, (pred r = true ↔ Pc r.country))
    (cstar : String)
    (h2 : ∃ r ∈ df, r.country = cstar)
    (h3 : Pc cstar)
    (h4 : ∀ r ∈ df, Pc r.country → CountryLe cstar r.country) :
    (df.find? pred).map (fun r => r.country) = some cstar := by
  obtain ⟨r0, hr0, hr0c⟩ := h2
  have hpr0 : pred r0 = true := (h1 r0 hr0).mpr (by rw [hr0c]; exact h3)
  cases hfind : df.find? pred with
  | none =>
    rw [List.find?_eq_none] at hfind
    exact absurd hpr0 (hfind r0 hr0)
  | some rstar =>
    have hpstar : pred rstar = true := List.find?_some hfind
    have hmem : rstar ∈ df := List.mem_of_find?_eq_some hfind
    have hPc : Pc rstar.country := (h1 rstar hmem).mp hpstar
    have hle1 : CountryLe cstar rstar.country := h4 rstar hmem hPc
    obtain ⟨d₁, d₂, hdf, hpre⟩ := find?_split pred df rstar hfind
    have hr0loc : r0 = rstar ∨ r0 ∈ d₂ := by
      rw [hdf] at hr0
      rcases List.mem_append.mp hr0 with h | h
      · exact absurd hpr0 (by rw [hpre r0 h]; simp)
      · rcases List.mem_cons.mp h with h | h
        · exact Or.inl h
        · exact Or.inr h
    rcases hr0loc with rfl | hr0loc
    · show some r0.country = some cstar
      rw [hr0c]
    · have hpw : ARowLe rstar r0 := by
        rw [hdf] at hsort
        have hp2 := (List.pairwise_append.mp hsort).2.1
        exact (List.pairwise_cons.mp hp2).1 r0 hr0loc
      have hle2 : CountryLe rstar.country cstar := by
        have hcl := aRowLe_country hpw
        rw [hr0c] at hcl
        exact hcl
      show some rstar.country = some cstar
      rw [countryLe_antisymm hle2 hle1]

theorem locIdxmax_find (l : List ARow) (r : ARow) (h : locIdxmaxValue l = Except.ok r) :
    l.find? (fun x => l.all (fun y => decide (y.value ≤ x.value))) = some r := by
  cases l with
  | nil => exact absurd h (by simp [locIdxmaxValue])
  | cons r0 rest =>
    have hr : rest.foldl (fun best x => if decide (best.value < x.value) then x else best) r0 = r := by
      have h2 : Except.ok (rest.foldl (fun best x => if decide (best.value < x.value) then x else best) r0)
          = Except.ok r := h
      exact Except.ok.inj h2
    have hfb := foldFirstBest (fun b x : ARow => decide (b.value < x.value))
        (fun best x => if decide (best.value < x.value) then x else best)
        (fun b x => rfl)
        (fun a b c h1 h2 => by
          simp only [decide_eq_true_eq] at h1 h2 ⊢
          exact lt_trans h1 h2)
        (fun a b c h1 h2 => by
          simp only [decide_eq_false_iff_not] at h1
          simp only [decide_eq_true_eq] at h2 ⊢
          exact lt_of_le_of_lt (le_of_not_lt h1) h2)
        rest r0
    rcases hfb with ⟨hfold, hall⟩ | ⟨l₁, x, l₂, hsplit, hfold, hrx, hpre, hsuf⟩
    · rw [hfold] at hr
      rw [← hr]
      apply List.find?_cons_of_pos
      rw [List.all_eq_true]
      intro y hy
      rcases List.mem_cons.mp hy with rfl | hy
      · simp
      · have := hall y hy
        simp only [decide_eq_false_iff_not] at this
        simp only [decide_eq_true_eq]
        exact le_of_not_lt this
    · rw [hfold] at hr
      rw [← hr]
      have hcons : r0 :: rest = (r0 :: l₁) ++ x :: l₂ := by
        rw [hsplit, List.cons_append]
      rw [hcons]
      apply find?_of_split
      · intro y hy
        rw [List.all_eq_false]
        refine ⟨x, ?_, ?_⟩
        · exact List.mem_cons_of_mem _ (List.mem_append_right _ (List.mem_cons_self _ _))
        · have hlt : y.value < x.value := by
            have := hpre y hy
            simpa using this
          simp [not_le_of_lt hlt]
      · rw [List.all_eq_true]
        intro y hy
        simp only [decide_eq_true_eq]
        rcases List.mem_append.mp hy with hy | hy
        · exact le_of_lt (by simpa using hpre y hy)
        · rcases List.mem_cons.mp hy with rfl | hy
          · exact le_refl _
          · exact le_of_not_lt (by simpa using hsuf y hy)

theorem locIdxmin_find (l : List ARow) (r : ARow) (h : locIdxminValue l = Except.ok r) :
    l.find? (fun x => l.all (fun y => decide (x.value ≤ y.value))) = some r := by
  cases l with
  | nil => exact absurd h (by simp [locIdxminValue])
  | cons r0 rest =>
    have hr : rest.foldl (fun best x => if decide (x.value < best.value) then x else best) r0 = r := by
      have h2 : Except.ok (rest.foldl (fun best x => if decide (x.value < best.value) then x else best) r0)
          = Except.ok r := h
      exact Except.ok.inj h2
    have hfb := foldFirstBest (fun b x : ARow => decide (x.value < b.value))
        (fun best x => if decide (x.value < best.value) then x else best)
        (fun b x => rfl)
        (fun a b c h1 h2 => by
          simp only [decide_eq_true_eq] at h1 h2 ⊢
          exact lt_trans h2 h1)
        (fun a b c h1 h2 => by
          simp only [decide_eq_false_iff_not] at h1
          simp only [decide_eq_true_eq] at h2 ⊢
          exact lt_of_lt_of_le h2 (le_of_not_lt h1))
        rest r0
    rcases hfb with ⟨hfold, hall⟩ | ⟨l₁, x, l₂, hsplit, hfold, hrx, hpre, hsuf⟩
    · rw [hfold] at hr
      rw [← hr]
      apply List.find?_cons_of_pos
      rw [List.all_eq_true]
      intro y hy
      rcases List.mem_cons.mp hy with rfl | hy
      · simp
      · have := hall y hy
        simp only [decide_eq_false_iff_not] at this
        simp only [decide_eq_true_eq]
        exact le_of_not_lt this
    · rw [hfold] at hr
      rw [← hr]
      have hcons : r0 :: rest = (r0 :: l₁) ++ x :: l₂ := by
        rw [hsplit, List.cons_append]
      rw [hcons]
      apply find?_of_split
      · intro y hy
        rw [List.all_eq_false]
        refine ⟨x, ?_, ?_⟩
        · exact List.mem_cons_of_mem _ (List.mem_append_right _ (List.mem_cons_self _ _))
        · have hlt : x.value < y.value := by
            have := hpre y hy
            simpa using this
          simp [not_le_of_lt hlt]
      · rw [List.all_eq_true]
        intro y hy
        simp only [decide_eq_true_eq]
        rcases List.mem_append.mp hy with hy | hy
        · exact le_of_lt (by simpa using hpre y hy)
        · rcases List.mem_cons.mp hy with rfl | hy
          · exact le_refl _
          · exact le_of_not_lt (by simpa using hsuf y hy)


theorem calculateStatistics_ok_parts (df : List ARow) (s : Stats)
    (hok : calculateStatistics df = Except.ok s) :
    ∃ largestRow smallestRow hi lo,
      locIdxmaxValue (latestData df) = Except.ok largestRow ∧
      locIdxminValue (latestData df) = Except.ok smallestRow ∧
      firstMaxPVal none ((sortedCountries df).map (fun c => (c, countryGrowthPct df c))) = some hi ∧
      firstMinPVal none ((sortedCountries df).map (fun c => (c, countryGrowthPct df c))) = some lo ∧
      s.largest_population_country = largestRow.country ∧
      s.smallest_population_country = smallestRow.country ∧
      s.highest_growth_country = hi.1 ∧
      s.lowest_growth_country = lo.1 := by
  simp only [calculateStatistics] at hok
  split at hok
  · exact absurd hok (by simp)
  · rename_i largestRow h1
    split at hok
    · exact absurd hok (by simp)
    · rename_i smallestRow h2
      split at hok
      · exact absurd hok (by simp)
      · rename_i hi h3
        split at hok
        · exact absurd hok (by simp)
        · rename_i lo h4
          have hfields := Except.ok.inj hok
          exact ⟨largestRow, smallestRow, hi, lo, h1, h2, h3, h4,
            by rw [← hfields], by rw [← hfields], by rw [← hfields], by rw [← hfields]⟩

theorem ble_false_total {a b : PVal} (h : PVal.ble a b = false) : PVal.ble b a = true := by
  rcases PVal.ble_total a b with h2 | h2
  · rw [h] at h2
    exact absurd h2 (by simp)
  · exact h2

/-- CLAIM C6: on a table in natural pipeline order (sorted by country and
year) whose per-country growth figures are not NaN, each of the four extremal
selections of `calculate_statistics` names the country of the first row, in
the table's row order, that attains the extremum — first occurrence wins on
ties. -/
theorem C6_extremal_tie_break (df : List ARow) (s : Stats)
    (hsort : List.Pairwise ARowLe df)
    (hg : ∀ r ∈ df, (countryGrowthPct df r.country).isNan = false)
    (hok : calculateStatistics df = Except.ok s) :
    ((df.find? (isLatestMaxRow df)).map (fun r => r.country) = some s.largest_population_country) ∧
    ((df.find? (isLatestMinRow df)).map (fun r => r.country) = some s.smallest_population_country) ∧
    ((df.find? (isTopGrowthRow df)).map (fun r => r.country) = some s.highest_growth_country) ∧
    ((df.find? (isBottomGrowthRow df)).map (fun r => r.country) = some s.lowest_growth_country) := by
  obtain ⟨largestRow, smallestRow, hi, lo, h1, h2, h3, h4, e1, e2, e3, e4⟩ :=
    calculateStatistics_ok_parts df s hok
  have hglnn : ∀ x ∈ (sortedCountries df).map (fun c => (c, countryGrowthPct df c)),
      x.2.isNan = false := by
    intro x hx
    rw [List.mem_map] at hx
    obtain ⟨c, hc, rfl⟩ := hx
    obtain ⟨r, hr, hrc⟩ := (sortedCountries_mem df c).mp hc
    have hthis := hg r hr
    rw [hrc] at hthis
    exact hthis
  have hglpw : List.Pairwise (fun a b : String × PVal => strLt a.1 b.1 = true)
      ((sortedCountries df).map (fun c => (c, countryGrowthPct df c))) := by
    rw [List.pairwise_map]
    exact sortedCountries_strict df
  refine ⟨?_, ?_, ?_, ?_⟩
  · rw [e1]
    have hfd : df.find? (isLatestMaxRow df)
        = (latestData df).find? (fun x => (latestData df).all (fun y => decide (y.value ≤ x.value))) := by
      conv_rhs => rw [latestData]
      rw [find?_filter]
      rfl
    rw [hfd, locIdxmax_find (latestData df) largestRow h1]
    rfl
  · rw [e2]
    have hfd : df.find? (isLatestMinRow df)
        = (latestData df).find? (fun x => (latestData df).all (fun y => decide (x.value ≤ y.value))) := by
      conv_rhs => rw [latestData]
      rw [find?_filter]
      rfl
    rw [hfd, locIdxmin_find (latestData df) smallestRow h2]
    rfl
  · rw [e3]
    obtain ⟨g₁, g₂, hgsplit, hpre, hall⟩ :
        ∃ g₁ g₂, (sortedCountries df).map (fun c => (c, countryGrowthPct df c)) = g₁ ++ hi :: g₂ ∧
          (∀ y ∈ g₁, PVal.ble hi.2 y.2 = false) ∧
          (∀ x ∈ (sortedCountries df).map (fun c => (c, countryGrowthPct df c)),
            PVal.ble x.2 hi.2 = true) := by
      cases hglc : (sortedCountries df).map (fun c => (c, countryGrowthPct df c)) with
      | nil => rw [hglc] at h3; exact absurd h3 (by simp [firstMaxPVal])
      | cons p rest =>
        have hnnrest : ∀ x ∈ rest, x.2.isNan = false := by
          intro x hx
          exact hglnn x (by rw [hglc]; exact List.mem_cons_of_mem _ hx)
        have hnnp : p.2.isNan = false := hglnn p (by rw [hglc]; exact List.mem_cons_self _ _)
        rw [hglc, firstMaxPVal_cons p rest hnnp, firstMaxPVal_some_eq_foldl rest p hnnrest] at h3
        have hfold_hi := Option.some.inj h3
        have hfb := foldFirstBest (fun b x : String × PVal => !PVal.ble x.2 b.2)
          (fun b x => if PVal.ble x.2 b.2 then b else x)
          (fun b x => by cases h : PVal.ble x.2 b.2 <;> simp [h])
          (fun a b c hab hbc => by
            rw [Bool.not_eq_true'] at hab hbc ⊢
            cases hca : PVal.ble c.2 a.2 with
            | false => rfl
            | true =>
              exfalso
              have hba := ble_false_total hab
              have := PVal.ble_trans _ _ _ hca hba
              rw [hbc] at this
              simp at this)
          (fun r a x hra hrx => by
            rw [Bool.not_eq_true'] at hrx ⊢
            have hra2 : PVal.ble a.2 r.2 = true := by simpa using hra
            cases hxa : PVal.ble x.2 a.2 with
            | false => rfl
            | true =>
              exfalso
              have := PVal.ble_trans _ _ _ hxa hra2
              rw [hrx] at this
              simp at this)
          rest p
        rcases hfb with ⟨hfold, hrest⟩ | ⟨l₁, x, l₂, hsplit, hfold, hpx, hprefix, hsuffix⟩
        · rw [hfold] at hfold_hi
          refine ⟨[], rest, by rw [List.nil_append, hfold_hi], by simp, ?_⟩
          intro x hx
          rcases List.mem_cons.mp hx with rfl | hx
          · rw [hfold_hi]
            exact PVal.ble_refl _
          · have hthis := hrest x hx
            simp at hthis
            rw [← hfold_hi]
            exact hthis
        · rw [hfold] at hfold_hi
          subst hfold_hi
          refine ⟨p :: l₁, l₂, by rw [hsplit, List.cons_append], ?_, ?_⟩
          · intro y hy
            have hthis := hprefix y hy
            simp at hthis
            exact hthis
          · intro z hz
            rcases List.mem_cons.mp hz with rfl | hz
            · have hthis := hprefix z (List.mem_cons_self _ _)
              simp at hthis
              exact ble_false_total hthis
            · rw [hsplit] at hz
              rcases List.mem_append.mp hz with hz | hz
              · have hthis := hprefix z (List.mem_cons_of_mem _ hz)
                simp at hthis
                exact ble_false_total hthis
              · rcases List.mem_cons.mp hz with rfl | hz
                · exact PVal.ble_refl _
                · have hthis := hsuffix z hz
                  simp at hthis
                  exact hthis
    have hhiMem : hi ∈ (sortedCountries df).map (fun c => (c, countryGrowthPct df c)) := by
      rw [hgsplit]
      exact List.mem_append_right _ (List.mem_cons_self _ _)
    obtain ⟨chi, hchi, hchie⟩ := List.mem_map.mp hhiMem
    have hhiSnd : hi.2 = countryGrowthPct df hi.1 := by
      rw [← hchie]
    have hhiC : hi.1 ∈ sortedCountries df := by
      rw [← hchie]
      exact hchi
    apply first_pred_country df (isTopGrowthRow df)
      (fun c => ∀ x ∈ df, PVal.ble (countryGrowthPct df x.country) (countryGrowthPct df c) = true)
      hsort
    · intro r _hr
      rw [isTopGrowthRow, List.all_eq_true]
    · exact (sortedCountries_mem df hi.1).mp hhiC
    · intro x hx
      have hxm : (x.country, countryGrowthPct df x.country)
          ∈ (sortedCountries df).map (fun c => (c, countryGrowthPct df c)) := by
        rw [List.mem_map]
        exact ⟨x.country, (sortedCountries_mem df x.country).mpr ⟨x, hx, rfl⟩, rfl⟩
      have hble2 : PVal.ble (countryGrowthPct df x.country) hi.2 = true := hall _ hxm
      rw [← hhiSnd]
      exact hble2
    · intro r hr hPc
      have hrm : (r.country, countryGrowthPct df r.country)
          ∈ (sortedCountries df).map (fun c => (c, countryGrowthPct df c)) := by
        rw [List.mem_map]
        exact ⟨r.country, (sortedCountries_mem df r.country).mpr ⟨r, hr, rfl⟩, rfl⟩
      rw [hgsplit] at hrm
      rcases List.mem_append.mp hrm with hrm | hrm
      · exfalso
        obtain ⟨r0, hr0, hr0c⟩ := (sortedCountries_mem df hi.1).mp hhiC
        have hble3 : PVal.ble (countryGrowthPct df r0.country) (countryGrowthPct df r.country) = true :=
          hPc r0 hr0
        rw [hr0c, ← hhiSnd] at hble3
        have hnot : PVal.ble hi.2 (countryGrowthPct df r.country) = false := hpre _ hrm
        rw [hble3] at hnot
        simp at hnot
      · rcases List.mem_cons.mp hrm with heq | hrm
        · have h5 : r.country = hi.1 := congrArg Prod.fst heq
          exact Or.inl h5.symm
        · right
          rw [hgsplit] at hglpw
          have hp2 := (List.pairwise_append.mp hglpw).2.1
          exact (List.pairwise_cons.mp hp2).1 _ hrm
  · rw [e4]
    obtain ⟨g₁, g₂, hgsplit, hpre, hall⟩ :
        ∃ g₁ g₂, (sortedCountries df).map (fun c => (c, countryGrowthPct df c)) = g₁ ++ lo :: g₂ ∧
          (∀ y ∈ g₁, PVal.ble y.2 lo.2 = false) ∧
          (∀ x ∈ (sortedCountries df).map (fun c => (c, countryGrowthPct df c)),
            PVal.ble lo.2 x.2 = true) := by
      cases hglc : (sortedCountries df).map (fun c => (c, countryGrowthPct df c)) with
      | nil => rw [hglc] at h4; exact absurd h4 (by simp [firstMinPVal])
      | cons p rest =>
        have hnnrest : ∀ x ∈ rest, x.2.isNan = false := by
          intro x hx
          exact hglnn x (by rw [hglc]; exact List.mem_cons_of_mem _ hx)
        have hnnp : p.2.isNan = false := hglnn p (by rw [hglc]; exact List.mem_cons_self _ _)
        rw [hglc, firstMinPVal_cons p rest hnnp, firstMinPVal_some_eq_foldl rest p hnnrest] at h4
        have hfold_lo := Option.some.inj h4
        have hfb := foldFirstBest (fun b x : String × PVal => !PVal.ble b.2 x.2)
          (fun b x => if PVal.ble b.2 x.2 then b else x)
          (fun b x => by cases h : PVal.ble b.2 x.2 <;> simp [h])
          (fun a b c hab hbc => by
            rw [Bool.not_eq_true'] at hab hbc ⊢
            cases hca : PVal.ble a.2 c.2 with
            | false => rfl
            | true =>
              exfalso
              have hba := ble_false_total hab
              have := PVal.ble_trans _ _ _ hba hca
              rw [hbc] at this
              simp at this)
          (fun r a x hra hrx => by
            rw [Bool.not_eq_true'] at hrx ⊢
            have hra2 : PVal.ble r.2 a.2 = true := by simpa using hra
            cases hxa : PVal.ble a.2 x.2 with
            | false => rfl
            | true =>
              exfalso
              have := PVal.ble_trans _ _ _ hra2 hxa
              rw [hrx] at this
              simp at this)
          rest p
        rcases hfb with ⟨hfold, hrest⟩ | ⟨l₁, x, l₂, hsplit, hfold, hpx, hprefix, hsuffix⟩
        · rw [hfold] at hfold_lo
          refine ⟨[], rest, by rw [List.nil_append, hfold_lo], by simp, ?_⟩
          intro x hx
          rcases List.mem_cons.mp hx with rfl | hx
          · rw [hfold_lo]
            exact PVal.ble_refl _
          · have hthis := hrest x hx
            simp at hthis
            rw [← hfold_lo]
            exact hthis
        · rw [hfold] at hfold_lo
          subst hfold_lo
          refine ⟨p :: l₁, l₂, by rw [hsplit, List.cons_append], ?_, ?_⟩
          · intro y hy
            have hthis := hprefix y hy
            simp at hthis
            exact hthis
          · intro z hz
            rcases List.mem_cons.mp hz with rfl | hz
            · have hthis := hprefix z (List.mem_cons_self _ _)
              simp at hthis
              exact ble_false_total hthis
            · rw [hsplit] at hz
              rcases List.mem_append.mp hz with hz | hz
              · have hthis := hprefix z (List.mem_cons_of_mem _ hz)
                simp at hthis
                exact ble_false_total hthis
              · rcases List.mem_cons.mp hz with rfl | hz
                · exact PVal.ble_refl _
                · have hthis := hsuffix z hz
                  simp at hthis
                  exact hthis
    have hloMem : lo ∈ (sortedCountries df).map (fun c => (c, countryGrowthPct df c)) := by
      rw [hgsplit]
      exact List.mem_append_right _ (List.mem_cons_self _ _)
    obtain ⟨clo, hclo, hcloe⟩ := List.mem_map.mp hloMem
    have hloSnd : lo.2 = countryGrowthPct df lo.1 := by
      rw [← hcloe]
    have hloC : lo.1 ∈ sortedCountries df := by
      rw [← hcloe]
      exact hclo
    apply first_pred_country df (isBottomGrowthRow df)
      (fun c => ∀ x ∈ df, PVal.ble (countryGrowthPct df c) (countryGrowthPct df x.country) = true)
      hsort
    · intro r _hr
      rw [isBottomGrowthRow, List.all_eq_true]
    · exact (sortedCountries_mem df lo.1).mp hloC
    · intro x hx
      have hxm : (x.country, countryGrowthPct df x.country)
          ∈ (sortedCountries df).map (fun c => (c, countryGrowthPct df c)) := by
        rw [List.mem_map]
        exact ⟨x.country, (sortedCountries_mem df x.country).mpr ⟨x, hx, rfl⟩, rfl⟩
      have hble2 : PVal.ble lo.2 (countryGrowthPct df x.country) = true := hall _ hxm
      rw [← hloSnd]
      exact hble2
    · intro r hr hPc
      have hrm : (r.country, countryGrowthPct df r.country)
          ∈ (sortedCountries df).map (fun c => (c, countryGrowthPct df c)) := by
        rw [List.mem_map]
        exact ⟨r.country, (sortedCountries_mem df r.country).mpr ⟨r, hr, rfl⟩, rfl⟩
      rw [hgsplit] at hrm
      rcases List.mem_append.mp hrm with hrm | hrm
      · exfalso
        obtain ⟨r0, hr0, hr0c⟩ := (sortedCountries_mem df lo.1).mp hloC
        have hble3 : PVal.ble (countryGrowthPct df r.country) (countryGrowthPct df r0.country) = true :=
          hPc r0 hr0
        rw [hr0c, ← hloSnd] at hble3
        have hnot : PVal.ble (countryGrowthPct df r.country) lo.2 = false := hpre _ hrm
        rw [hble3] at hnot
        simp at hnot
      · rcases List.mem_cons.mp hrm with heq | hrm
        · have h5 : r.country = lo.1 := congrArg Prod.fst heq
          exact Or.inl h5.symm
        · right
          rw [hgsplit] at hglpw
          have hp2 := (List.pairwise_append.mp hglpw).2.1
          exact (List.pairwise_cons.mp hp2).1 _ hrm

/-- Witness: CLAIM C6 instantiated on the tied two-country table, where every
extremal statistic resolves to "A", the first-occurring country. -/
theorem C6_extremal_tie_break_witness :
    (List.Pairwise ARowLe c6Table ∧
     (∀ r ∈ c6Table, (countryGrowthPct c6Table r.country).isNan = false) ∧
     calculateStatistics c6Table = Except.ok c6Stats) ∧
    ((c6Table.find? (isLatestMaxRow c6Table)).map (fun r => r.country)
        = some c6Stats.largest_population_country) ∧
    ((c6Table.find? (isLatestMinRow c6Table)).map (fun r => r.country)
        = some c6Stats.smallest_population_country) ∧
    ((c6Table.find? (isTopGrowthRow c6Table)).map (fun r => r.country)
        = some c6Stats.highest_growth_country) ∧
    ((c6Table.find? (isBottomGrowthRow c6Table)).map (fun r => r.country)
        = some c6Stats.lowest_growth_country) :=
  ⟨⟨by decide, by decide, by decide⟩,
   C6_extremal_tie_break c6Table c6Stats (by decide) (by decide) (by decide)⟩

theorem int_max?_iff {l : List Int} {L : Int} :
    l.max? = some L ↔ L ∈ l ∧ ∀ x ∈ l, x ≤ L := by
  haveI : Std.Antisymm ((· : Int) ≤ ·) := ⟨fun h1 h2 => Int.le_antisymm h1 h2⟩
  exact List.max?_eq_some_iff (fun a => Int.le_refl a) (fun a b => max_choice a b)
    (fun a b c => max_le_iff)

theorem int_max?_perm {l l' : List Int} (h : l.Perm l') : l.max? = l'.max? := by
  cases hm : l.max? with
  | none =>
    rw [List.max?_eq_none_iff] at hm
    rw [hm] at h
    rw [eq_comm, List.max?_eq_none_iff]
    exact (List.Perm.nil_eq h).symm
  | some L =>
    rw [int_max?_iff] at hm
    rw [eq_comm, int_max?_iff]
    exact ⟨h.mem_iff.mp hm.1, fun x hx => hm.2 x (h.mem_iff.mpr hx)⟩

theorem sorted_insertionSort_yearLe (l : List ARow) :
    List.Pairwise YearLe (List.insertionSort YearLe l) := by
  haveI : IsTotal ARow YearLe := ⟨fun a b => Int.le_total a.year b.year⟩
  haveI : IsTrans ARow YearLe := ⟨fun a b c hab hbc => Int.le_trans hab hbc⟩
  exact List.sorted_insertionSort YearLe l

/-- CLAIM C7: for every annotated table, country X present in it with last
observed year L, and horizon N, the forecast returns the observed rows for X
followed by exactly N predicted rows: the output has (observed rows) + N rows,
is ordered by year ascending, the last N rows carry years L+1 .. L+N
consecutively with is_predicted set, and the observed prefix has is_predicted
clear. -/
theorem C7_forecast_shape (df : List ARow) (X : String) (N : Nat) (L : Int)
    (hne : df.filter (fun r => r.country == X) ≠ [])
    (hL : ((df.filter (fun r => r.country == X)).map (fun r => r.year)).max? = some L) :
    ∃ out, predictPopulation df X N = some out ∧
      out.length = (df.filter (fun r => r.country == X)).length + N ∧
      List.Pairwise (fun a b : FRow => a.year ≤ b.year) out ∧
      ((out.drop (df.filter (fun r => r.country == X)).length).map (fun r => r.year)
        = (List.range N).map (fun (k : Nat) => L + 1 + (k : Int))) ∧
      (∀ r ∈ out.drop (df.filter (fun r => r.country == X)).length, r.is_predicted = true) ∧
      (∀ r ∈ out.take (df.filter (fun r => r.country == X)).length, r.is_predicted = false) := by
  have hperm := List.perm_insertionSort YearLe (df.filter (fun r => r.country == X))
  have hCDne : List.insertionSort YearLe (df.filter (fun r => r.country == X)) ≠ [] := by
    intro h0
    have h2 := hperm
    rw [h0] at h2
    exact hne (List.Perm.nil_eq h2).symm
  have hiE : (List.insertionSort YearLe (df.filter (fun r => r.country == X))).isEmpty = false := by
    cases hc : List.insertionSort YearLe (df.filter (fun r => r.country == X)) with
    | nil => exact absurd hc hCDne
    | cons a l => rfl
  have hLCD : ((List.insertionSort YearLe (df.filter (fun r => r.country == X))).map
      (fun r => r.year)).max? = some L := by
    rw [int_max?_perm (List.Perm.map (fun r => r.year) hperm)]
    exact hL
  have hgetD : (((List.insertionSort YearLe (df.filter (fun r => r.country == X))).map
      (fun r => r.year)).max?).getD 0 = L := by
    rw [hLCD]
    rfl
  have hlenCD : (List.insertionSort YearLe (df.filter (fun r => r.country == X))).length
      = (df.filter (fun r => r.country == X)).length := hperm.length_eq
  have hub : ∀ r ∈ List.insertionSort YearLe (df.filter (fun r => r.country == X)),
      r.year ≤ L := by
    intro r hr
    exact (int_max?_iff.mp hLCD).2 r.year (List.mem_map.mpr ⟨r, hr, rfl⟩)
  simp only [predictPopulation]
  rw [if_neg (by rw [hiE]; simp)]
  rw [hgetD]
  refine ⟨_, rfl, ?_, ?_, ?_, ?_, ?_⟩
  · rw [List.length_append, List.length_map, List.length_map, List.length_range, hlenCD]
  · rw [List.pairwise_append]
    refine ⟨?_, ?_, ?_⟩
    · rw [List.pairwise_map]
      exact List.Pairwise.imp (fun h => h) (sorted_insertionSort_yearLe _)
    · rw [List.pairwise_map]
      refine List.Pairwise.imp ?_ (List.pairwise_lt_range N)
      intro a b h
      show L + 1 + (a : Int) ≤ L + 1 + (b : Int)
      omega
    · intro a ha b hb
      rw [List.mem_map] at ha hb
      obtain ⟨r, hr, rfl⟩ := ha
      obtain ⟨k, _, rfl⟩ := hb
      have := hub r hr
      show r.year ≤ L + 1 + (k : Int)
      omega
  · rw [← hlenCD, ← List.length_map (List.insertionSort YearLe
      (df.filter (fun r => r.country == X))), List.drop_left, List.map_map]
    rfl
  · rw [← hlenCD, ← List.length_map (List.insertionSort YearLe
      (df.filter (fun r => r.country == X))), List.drop_left]
    intro r hr
    rw [List.mem_map] at hr
    obtain ⟨k, _, rfl⟩ := hr
    rfl
  · rw [← hlenCD, ← List.length_map (List.insertionSort YearLe
      (df.filter (fun r => r.country == X))), List.take_left]
    intro r hr
    rw [List.mem_map] at hr
    obtain ⟨x, _, rfl⟩ := hr
    rfl

/-- Witness: CLAIM C7 instantiated on the running example with a two-year
horizon: five rows, predicted years 2003 and 2004. -/
theorem C7_forecast_shape_witness :
    (exTable.filter (fun r => r.country == "A") ≠ [] ∧
     ((exTable.filter (fun r => r.country == "A")).map (fun r => r.year)).max? = some 2002) ∧
    (∃ out, predictPopulation exTable "A" 2 = some out ∧
      out.length = (exTable.filter (fun r => r.country == "A")).length + 2 ∧
      List.Pairwise (fun a b : FRow => a.year ≤ b.year) out ∧
      ((out.drop (exTable.filter (fun r => r.country == "A")).length).map (fun r => r.year)
        = (List.range 2).map (fun (k : Nat) => 2002 + 1 + (k : Int))) ∧
      (∀ r ∈ out.drop (exTable.filter (fun r => r.country == "A")).length, r.is_predicted = true) ∧
      (∀ r ∈ out.take (exTable.filter (fun r => r.country == "A")).length,
        r.is_predicted = false)) :=
  ⟨⟨by decide, by decide⟩, C7_forecast_shape exTable "A" 2 2002 (by decide) (by decide)⟩

theorem compareTry_eq (df : List ARow) (cs : List String) (s e : Option Int) :
    compareTry df cs s e =
      if (df.filter (fun r => cs.contains r.country)).isEmpty then Except.ok none
      else Except.ok (some (reannotate (List.insertionSort ARowLe
        (df.filter (matchesFilter cs s e))))) := by
  cases s with
  | none =>
    cases e with
    | none =>
      have hfe : df.filter (matchesFilter cs none none)
          = df.filter (fun r => cs.contains r.country) :=
        List.filter_congr (by intro a _; simp [matchesFilter])
      simp only [compareTry]
      rw [hfe]
    | some ev =>
      have hfe : df.filter (matchesFilter cs none (some ev))
          = (df.filter (fun r => cs.contains r.country)).filter
              (fun r => decide (r.year ≤ ev)) := by
        rw [List.filter_filter]
        exact List.filter_congr (by
          intro a _
          simp [matchesFilter, Bool.and_comm])
      simp only [compareTry]
      rw [hfe]
  | some sv =>
    cases e with
    | none =>
      have hfe : df.filter (matchesFilter cs (some sv) none)
          = (df.filter (fun r => cs.contains r.country)).filter
              (fun r => decide (sv ≤ r.year)) := by
        rw [List.filter_filter]
        exact List.filter_congr (by
          intro a _
          simp [matchesFilter, Bool.and_comm])
      simp only [compareTry]
      rw [hfe]
    | some ev =>
      have hfe : df.filter (matchesFilter cs (some sv) (some ev))
          = ((df.filter (fun r => cs.contains r.country)).filter
              (fun r => decide (sv ≤ r.year))).filter (fun r => decide (r.year ≤ ev)) := by
        rw [List.filter_filter, List.filter_filter]
        exact List.filter_congr (by
          intro a _
          simp [matchesFilter, Bool.and_comm, Bool.and_left_comm, Bool.and_assoc])
      simp only [compareTry]
      rw [hfe]

/-- CLAIM C8 (refuted as stated): the comparator's no-data `None` is produced
exactly when the country filter alone is empty; a non-empty country selection
whose year bounds eliminate every row yields `some []` — an empty table, not
the no-data signal. -/
theorem C8_counterexample :
    c8Table.filter (matchesFilter ["A"] (some 2005) none) = [] ∧
    compareCountries c8Table ["A"] (some 2005) none = some [] ∧
    (some ([] : List ARow)) ≠ (none : Option (List ARow)) :=
  ⟨by decide, by decide, by decide⟩

/-- CLAIM C8 (amended): `compare_countries` returns `None` iff no row survives
the country filter; if the country filter is non-empty but the combined
country-and-year filter retains nothing, the result is `some []`. -/
theorem C8_no_data_signal (df : List ARow) (cs : List String) (s e : Option Int) :
    (compareCountries df cs s e = none ↔
      df.filter (fun r => cs.contains r.country) = []) ∧
    (df.filter (fun r => cs.contains r.country) ≠ [] →
      df.filter (matchesFilter cs s e) = [] →
      compareCountries df cs s e = some []) := by
  constructor
  · rw [compareCountries, compareTry_eq]
    by_cases hf : (df.filter (fun r => cs.contains r.country)).isEmpty = true
    · rw [if_pos hf]
      simp only [exceptToNone]
      exact ⟨fun _ => List.isEmpty_iff.mp hf, fun _ => trivial⟩
    · rw [if_neg hf]
      simp only [exceptToNone]
      constructor
      · intro h
        exact absurd h (by simp)
      · intro h
        exact absurd (List.isEmpty_iff.mpr h) hf
  · intro hne hm
    rw [compareCountries, compareTry_eq, if_neg]
    · rw [hm]
      rfl
    · rw [List.isEmpty_iff]
      exact hne

/-- Witness: CLAIM C8 (amended) instantiated on the one-row table with a year
bound past its data: the comparator answers `some []`. -/
theorem C8_no_data_signal_witness :
    (c8Table.filter (fun r => (["A"] : List String).contains r.country) ≠ [] ∧
     c8Table.filter (matchesFilter ["A"] (some 2005) none) = []) ∧
    compareCountries c8Table ["A"] (some 2005) none = some [] :=
  ⟨⟨by decide, by decide⟩,
   (C8_no_data_signal c8Table ["A"] (some 2005) none).2 (by decide) (by decide)⟩

/-- CLAIM C9: the comparator recomputes both growth columns over the filtered
window only: its output is the grouped re-annotation of the sorted filtered
rows, the first retained row of each country group carries NaN growth fields,
and every later retained row's growth is taken against the immediately
preceding retained row of the same country (finite percentage whenever that
predecessor's value is nonzero); concretely, comparing exTable on country "A"
from 2001 yields two rows with NaN growth for 2001 and growth_value 11 for
2002. -/
theorem C9_window_recompute (df : List ARow) (cs : List String) (s e : Option Int)
    (out : List ARow) (hout : compareCountries df cs s e = some out) :
    (out = reannotate (List.insertionSort ARowLe (df.filter (matchesFilter cs s e)))) ∧
    (out[0]? = ((List.insertionSort ARowLe (df.filter (matchesFilter cs s e)))[0]?).map
        (fun r => { r with growth_value := PVal.nan, growth_percentage := PVal.nan })) ∧
    (∀ j p q, (List.insertionSort ARowLe (df.filter (matchesFilter cs s e)))[j]? = some p →
      (List.insertionSort ARowLe (df.filter (matchesFilter cs s e)))[j + 1]? = some q →
      (p.country ≠ q.country →
        out[j + 1]? = some { q with growth_value := PVal.nan,
                                    growth_percentage := PVal.nan }) ∧
      (p.country = q.country →
        ∃ gp, out[j + 1]? = some { q with
            growth_value := PVal.num (q.value - p.value), growth_percentage := gp } ∧
          (p.value ≠ 0 → gp = PVal.num ((q.value / p.value - 1) * 100)))) ∧
    compareCountries exTable ["A"] (some 2001) none =
      some [⟨"A", 2001, 110, PVal.nan, PVal.nan⟩,
            ⟨"A", 2002, 121, PVal.num 11, PVal.num 10⟩] := by
  have hveq : out = reannotate (List.insertionSort ARowLe
      (df.filter (matchesFilter cs s e))) := by
    rw [compareCountries, compareTry_eq] at hout
    by_cases hf : (df.filter (fun r => cs.contains r.country)).isEmpty = true
    · rw [if_pos hf] at hout
      exact absurd hout (by simp [exceptToNone])
    · rw [if_neg hf] at hout
      simp only [exceptToNone] at hout
      exact (Option.some.inj hout).symm
  have hsorted : List.Pairwise (fun a b : ARow => CountryLe a.country b.country)
      (List.insertionSort ARowLe (df.filter (matchesFilter cs s e))) :=
    List.Pairwise.imp (fun h => aRowLe_country h) (sorted_insertionSort_aRowLe _)
  refine ⟨hveq, ?_, ?_, by decide⟩
  · rw [hveq]
    exact reannotate_get_zero _ hsorted
  · intro j p q hp hq
    have hsucc := reannotate_get_succ _ hsorted j
    rw [hp, hq] at hsucc
    constructor
    · intro hne
      rw [hveq, hsucc]
      show some { q with
          growth_value := (growthCols (if p.country = q.country then some (PVal.num p.value)
            else none) (PVal.num q.value)).1,
          growth_percentage := (growthCols (if p.country = q.country then some (PVal.num p.value)
            else none) (PVal.num q.value)).2 } = _
      rw [if_neg hne]
      rfl
    · intro hceq
      refine ⟨(growthCols (some (PVal.num p.value)) (PVal.num q.value)).2, ?_, ?_⟩
      · rw [hveq, hsucc]
        show some { q with
            growth_value := (growthCols (if p.country = q.country then some (PVal.num p.value)
              else none) (PVal.num q.value)).1,
            growth_percentage := (growthCols (if p.country = q.country then some (PVal.num p.value)
              else none) (PVal.num q.value)).2 } = _
        rw [if_pos hceq]
        simp only [growthCols, PVal.sub, qsub_eq]
      · intro hpz
        simp only [growthCols, PVal.div, PVal.sub, PVal.mul, if_neg hpz,
          qdiv_eq, qsub_eq, qmul_eq]

/-- Witness: CLAIM C9 instantiated on the spec's concrete scenario: country
"A" from 2001 gives NaN growth for 2001 and growth_value 11 for 2002. -/
theorem C9_window_recompute_witness :
    compareCountries exTable ["A"] (some 2001) none =
      some [⟨"A", 2001, 110, PVal.nan, PVal.nan⟩,
            ⟨"A", 2002, 121, PVal.num 11, PVal.num 10⟩] ∧
    [(⟨"A", 2001, 110, PVal.nan, PVal.nan⟩ : ARow),
     ⟨"A", 2002, 121, PVal.num 11, PVal.num 10⟩] =
      reannotate (List.insertionSort ARowLe
        (exTable.filter (matchesFilter ["A"] (some 2001) none))) :=
  ⟨by decide,
   (C9_window_recompute exTable ["A"] (some 2001) none
     [⟨"A", 2001, 110, PVal.nan, PVal.nan⟩, ⟨"A", 2002, 121, PVal.num 11, PVal.num 10⟩]
     (by decide)).1⟩

/-- CLAIM C10: the comparator never surfaces an exception to its caller: its
result is always the catch-all image of the `try` body, the catch-all maps
every error to `none`, and `none` is exactly the value returned for an empty
country filter — so an internal error is indistinguishable from the no-data
signal at the call site. -/
theorem C10_errors_become_none :
    (∀ err : PyError, exceptToNone (Except.error err) = none) ∧
    (∀ (df : List ARow) (cs : List String) (s e : Option Int),
      compareCountries df cs s e = exceptToNone (compareTry df cs s e)) ∧
    (∀ (df : List ARow) (cs : List String) (s e : Option Int),
      df.filter (fun r => cs.contains r.country) = [] →
      compareCountries df cs s e = none) :=
  ⟨fun _ => rfl, fun _ _ _ _ => rfl, fun df cs s e h => by
    rw [compareCountries, compareTry_eq, if_pos (List.isEmpty_iff.mpr h)]
    rfl⟩

/-- Witness: CLAIM C10 instantiated on a country set matching no rows: the
comparator answers the no-data `none`. -/
theorem C10_errors_become_none_witness :
    c8Table.filter (fun r => (["Q"] : List String).contains r.country) = [] ∧
    compareCountries c8Table ["Q"] none none = none :=
  ⟨by decide, C10_errors_become_none.2.2 c8Table ["Q"] none none (by decide)⟩
